import Mathlib

/-!
# Verification of the pagertally hour-classification calendar

Shallow embedding of `src/pkg/calendar/calendar.go` (package `calendar`).

Modelling conventions:

* Go `time.Time` is modelled by `GoTime`: an absolute instant (Unix seconds,
  `Int`) together with the UTC offset (seconds, `Int`) of the location the
  timestamp is presented in.  Locations are modelled as fixed-offset zones
  (the code computes a zone's offset `at that instant`; within one
  classification run every timestamp keeps a constant offset, so a location
  is identified with its offset in seconds).  Wall-clock fields (hour,
  weekday, ...) are derived from `instant + offset`.
* `time.Time.Format(time.RFC3339)` renders the wall-clock fields together
  with the numeric UTC offset; at whole-second resolution that string is in
  bijection with the pair (wall-clock seconds, offset seconds).  We use that
  pair as the map key (`HourKey`).
* `Format("2006-01-02 15:04:05")` (the `YmdHis` layout) renders only the
  wall-clock fields, so its key is the wall-clock seconds alone.
* The Go map `map[string]int` is modelled by an association list where an
  insert prepends and lookup takes the first match (= last write wins);
  a read of a missing key yields the zero value `0`.
* The third-party iterator `timerange.New(start, end, step)` with
  `Next`/`Current` enumerates `start, start+step, ...` up to and including
  `end` (both endpoints inclusive).  The source relies on this: the weekday
  after-hours loop ends at `day.Add(23h)` "to avoid adding an extra hour at
  the end of the day", which is only needed with an inclusive endpoint.
* The external iCal feed is modelled as already-parsed data: a list of
  calendars, each a day-keyed table of events (`GetEventsByDates`).
  Fetching/parsing failures (which make `NewCalendar` abort) are outside
  the embedding: inputs are the successfully parsed feeds.
* `pkg/config.ScheduleConfig` is not under `src/`; the fields used by
  `calendar.go` (Timezone, ParsedTimezone, Holidays, BusinessHours.Start,
  BusinessHours.End) are modelled from their uses.
-/

/-- Model of Go `time.Time`: absolute instant (Unix seconds) plus the UTC
offset in seconds of the location it is presented in. -/
structure GoTime where
  instant : Int
  offset : Int
deriving DecidableEq, Repr

/-- Wall-clock seconds of a timestamp: the civil (year, month, day, hour,
minute, second) fields linearised as seconds, i.e. `instant + offset`. -/
def wallClock (t : GoTime) : Int := t.instant + t.offset

/-- Go `t.Add(d)`: shifts the absolute instant, keeps the location. -/
def goAdd (t : GoTime) (d : Int) : GoTime := ⟨t.instant + d, t.offset⟩

/-- Go `t.In(loc)`: same instant presented in another location. -/
def goIn (t : GoTime) (loc : Int) : GoTime := ⟨t.instant, loc⟩

/-- Go `t.Weekday()`: 0 = Sunday, ..., 6 = Saturday, computed from the
wall clock (1970-01-01 was a Thursday = 4). -/
def goWeekday (t : GoTime) : Int := (wallClock t / 86400 + 4) % 7

/-- Go `t.Hour()`: the wall-clock hour in `0..23`. -/
def goHour (t : GoTime) : Int := (wallClock t / 3600) % 24

/-- `FlattenTime` (calendar.go:223): rebuilds the timestamp from its
(year, month, day, hour) fields with zero minutes/seconds, same location.
With a fixed-offset location this is exactly flooring the wall clock to a
whole hour. -/
def FlattenTime (t : GoTime) : GoTime :=
  ⟨wallClock t - wallClock t % 3600 - t.offset, t.offset⟩

/-- `FlattenDate` (calendar.go:215): floors the wall clock to the day. -/
def FlattenDate (t : GoTime) : GoTime :=
  ⟨wallClock t - wallClock t % 86400 - t.offset, t.offset⟩

/-- `AdjustForTimezone` (calendar.go:232): flattens to the hour, reads the
target zone's offset at that instant, subtracts it from the absolute time
and re-presents the result in the target location. -/
def AdjustForTimezone (t : GoTime) (loc : Int) : GoTime :=
  let flatTime := FlattenTime t
  let tzOffsetSeconds := (goIn flatTime loc).offset
  goIn (goAdd flatTime (-tzOffsetSeconds)) loc

/-- The `timerange.New(s, e, step).Next()/Current()` iteration, collected
into a list: `s, s+step, ...`, every element `≤ e`, both ends inclusive. -/
def timerangeList (s e : GoTime) (step : Int) : List GoTime :=
  if s.instant ≤ e.instant then
    (List.range ((e.instant - s.instant).toNat / step.toNat + 1)).map
      (fun k : ℕ => goAdd s (step * (k : Int)))
  else []

/-- `BusinessHour` (calendar.go:14). -/
def BusinessHour : Int := 1

/-- `BusinessAfterHour` (calendar.go:17). -/
def BusinessAfterHour : Int := 2

/-- `WeekendHour` (calendar.go:20). -/
def WeekendHour : Int := 3

/-- `StatHolidayHour` (calendar.go:23). -/
def StatHolidayHour : Int := 4

/-- Key of the `CalendarHours` map: the RFC3339 rendering of a timestamp,
which at second resolution is in bijection with the pair
(wall-clock seconds, UTC offset seconds). -/
abbrev HourKey := Int × Int

/-- Go `t.Format(time.RFC3339)`, as the equivalent (wall clock, offset)
pair. -/
def formatRFC3339 (t : GoTime) : HourKey := (wallClock t, t.offset)

/-- Go `t.Format(YmdHis)` with `YmdHis = "2006-01-02 15:04:05"`: renders
only the wall-clock fields, so the key is the wall-clock seconds. -/
def formatYmdHis (t : GoTime) : Int := wallClock t

/-- Model of the Go map `map[string]int`: association list, last write
first. -/
abbrev HourMap := List (HourKey × Int)

/-- Go map lookup with the comma-ok form: `v, ok := m[k]`. -/
def mapGet? (m : HourMap) (k : HourKey) : Option Int :=
  match m with
  | [] => none
  | (k2, v) :: rest => if k2 = k then some v else mapGet? rest k

/-- Go map read without the ok flag: missing keys yield the zero value 0. -/
def mapGetD (m : HourMap) (k : HourKey) : Int := (mapGet? m k).getD 0

/-- One event of the parsed iCal feed (`GetSummary`, `GetStart`,
`GetEnd`). -/
structure Event where
  Summary : String
  Start : GoTime
  End : GoTime
deriving DecidableEq, Repr

/-- `cal.GetEventsByDates()`: a table from the `YmdHis`-formatted day to
the events of that day. -/
abbrev EventsByDates := List (Int × List Event)

/-- Lookup in the events-by-dates table (`events, exists := m[key]`). -/
def lookupEvents (m : EventsByDates) (k : Int) : Option (List Event) :=
  match m with
  | [] => none
  | (k2, v) :: rest => if k2 = k then some v else lookupEvents rest k

/-- The parsed feeds returned by `parser.GetCalendars()`. -/
abbrev ICalCalendars := List EventsByDates

/-- `config.BusinessHoursConfig`: the configured business-hours start and
end strings (modelled from their uses in `GetBusinessHours`). -/
structure BusinessHoursConfig where
  Start : String
  End : String
deriving DecidableEq, Repr

/-- `config.ScheduleConfig`: the fields `calendar.go` reads.  The
`CalendarURL` is not modelled (the fetched feed is passed as parsed
input); `ParsedTimezone` is a fixed-offset location. -/
structure ScheduleConfig where
  Timezone : String
  ParsedTimezone : Int
  Holidays : List String
  BusinessHours : BusinessHoursConfig
deriving DecidableEq, Repr

/-- `Calendar` (calendar.go:32). -/
structure Calendar where
  CalStart : GoTime
  CalEnd : GoTime
  CalDays : List GoTime
  CalendarHours : HourMap
  ScheduleConfig : ScheduleConfig
  CalTimezone : Int
deriving DecidableEq, Repr

/-- Whether a year is a leap year (proleptic Gregorian, as Go). -/
def isLeapYear (y : Int) : Bool :=
  y % 4 = 0 && (y % 100 ≠ 0 || y % 400 = 0)

/-- Number of days of a month (used by the date parser's range check). -/
def daysInMonth (y m : Int) : Int :=
  if m = 2 then (if isLeapYear y then 29 else 28)
  else if m = 4 ∨ m = 6 ∨ m = 9 ∨ m = 11 then 30
  else 31

/-- Days from 1970-01-01 to the given proleptic-Gregorian civil date. -/
def daysFromCivil (y m d : Int) : Int :=
  let y2 := if m ≤ 2 then y - 1 else y
  let era := y2 / 400
  let yoe := y2 - era * 400
  let mp := (m + 9) % 12
  let doy := (153 * mp + 2) / 5 + d - 1
  let doe := yoe * 365 + yoe / 4 - yoe / 100 + doy
  era * 146097 + doe - 719468

/-- Value of a decimal digit character. -/
def digitVal (c : Char) : Option Int :=
  if 48 ≤ c.toNat ∧ c.toNat ≤ 57 then some (Int.ofNat (c.toNat - 48)) else none

/-- Two-digit zero-padded number (the fixed-width numeric fields of the
layout). -/
def num2 (a b : Char) : Option Int := do
  let x ← digitVal a
  let y ← digitVal b
  pure (10 * x + y)

/-- Model of Go `time.Parse("2006-01-02 15:04:05", s)` (the `YmdHis`
layout): requires the exact fixed-width shape `YYYY-MM-DD HH:MM:SS` and
in-range fields, yields a UTC timestamp; `none` models the error return
(in which case Go also returns the zero `time.Time`). -/
def parseYmdHis (s : String) : Option GoTime :=
  match s.data with
  | [y1, y2, y3, y4, c1, mo1, mo2, c2, d1, d2, c3, h1, h2, c4, mi1, mi2, c5, s1, s2] =>
    if c1 = '-' ∧ c2 = '-' ∧ c3 = ' ' ∧ c4 = ':' ∧ c5 = ':' then do
      let yh ← num2 y1 y2
      let yl ← num2 y3 y4
      let mo ← num2 mo1 mo2
      let d ← num2 d1 d2
      let h ← num2 h1 h2
      let mi ← num2 mi1 mi2
      let se ← num2 s1 s2
      let y := 100 * yh + yl
      if 1 ≤ mo ∧ mo ≤ 12 ∧ 1 ≤ d ∧ d ≤ daysInMonth y mo ∧ h ≤ 23 ∧ mi ≤ 59 ∧ se ≤ 59 then
        pure ⟨86400 * daysFromCivil y mo d + 3600 * h + 60 * mi + se, 0⟩
      else none
    else none
  | _ => none

/-- Go's zero `time.Time`: January 1, year 1, 00:00:00 UTC. -/
def zeroTime : GoTime := ⟨-719162 * 86400, 0⟩

/-- `GetBusinessHours` (calendar.go:75): parses the configured start and
end strings with the `YmdHis` layout, discarding the errors — a string
that fails to parse produces the zero `time.Time`. -/
def GetBusinessHours (c : Calendar) : GoTime × GoTime :=
  ((parseYmdHis c.ScheduleConfig.BusinessHours.Start).getD zeroTime,
   (parseYmdHis c.ScheduleConfig.BusinessHours.End).getD zeroTime)

/-- `addHour` (calendar.go:80): `c.CalendarHours[hourStart.Format(time.RFC3339)] = hourType`. -/
def addHour (m : HourMap) (hourStart : GoTime) (hourType : Int) : HourMap :=
  (formatRFC3339 hourStart, hourType) :: m

/-- `filterEvent` (calendar.go:131): exact-match membership of the event
name in the configured whitelist. -/
def filterEvent (c : Calendar) (eventName : String) : Bool :=
  c.ScheduleConfig.Holidays.any (fun h => eventName == h)

/-- The inner hour loop of `parseAndFilterPublicHolidayiCal`
(calendar.go:117-120): every enumerated hour is timezone-adjusted and
written as a statutory-holiday hour. -/
def tagEventHourLoop (c : Calendar) (m : HourMap) (ts : List GoTime) : HourMap :=
  ts.foldl
    (fun acc t => addHour acc (AdjustForTimezone t c.ScheduleConfig.ParsedTimezone) StatHolidayHour) m

/-- The per-event body of `parseAndFilterPublicHolidayiCal`
(calendar.go:110-122): whitelisted events have the whole hours from their
flattened start to one hour before their flattened end enumerated
(inclusive iteration over `[flatStart, flatEnd - 1h]`). -/
def tagEventHours (c : Calendar) (m : HourMap) (event : Event) : HourMap :=
  if filterEvent c event.Summary then
    tagEventHourLoop c m
      (timerangeList (FlattenTime event.Start) (goAdd (FlattenTime event.End) (-3600)) 3600)
  else m

/-- The per-parsed-calendar loop of `parseAndFilterPublicHolidayiCal`
(calendar.go:102-124): for every schedule day, look up that day's events
by its `YmdHis` key and process each event. -/
def tagCalendarEvents (c : Calendar) (eventsByDates : EventsByDates) (m : HourMap) : HourMap :=
  c.CalDays.foldl
    (fun acc schedDay =>
      match lookupEvents eventsByDates (formatYmdHis (FlattenTime schedDay)) with
      | none => acc
      | some events => events.foldl (tagEventHours c) acc) m

/-- `parseAndFilterPublicHolidayiCal` (calendar.go:84), with the feed
already parsed: pass 1, writing the statutory-holiday hours. -/
def parseAndFilterPublicHolidayiCal (c : Calendar) (cals : ICalCalendars) : Calendar :=
  { c with CalendarHours := cals.foldl (fun acc cal => tagCalendarEvents c cal acc) c.CalendarHours }

/-- One guarded hour loop of `tagAfterhoursAndWeekends`: each enumerated
hour is flattened and, unless already tagged statutory-holiday, written
with the given tag (calendar.go:144-149, 153-158, 162-167, 169-174). -/
def tagHourLoop (m : HourMap) (ts : List GoTime) (tag : Int) : HourMap :=
  ts.foldl
    (fun acc t =>
      if mapGetD acc (formatRFC3339 (FlattenTime t)) ≠ StatHolidayHour then
        addHour acc (FlattenTime t) tag
      else acc) m

/-- The per-day body of `tagAfterhoursAndWeekends` (calendar.go:142-176):
Saturday/Sunday tag hours `[day, day+24h]` weekend; other days tag
`[day, day+bStart·h]` after-hours, then `[day+bEnd·h, day+23h]`
after-hours — except Friday, which tags `[day+bEnd·h, day+24h]`
weekend. -/
def tagDay (bStartHour bEndHour : Int) (m : HourMap) (day : GoTime) : HourMap :=
  if goWeekday day = 6 ∨ goWeekday day = 0 then
    tagHourLoop m (timerangeList day (goAdd day (3600 * 24)) 3600) WeekendHour
  else if goWeekday day ≠ 5 then
    tagHourLoop
      (tagHourLoop m (timerangeList day (goAdd day (3600 * bStartHour)) 3600) BusinessAfterHour)
      (timerangeList (goAdd day (3600 * bEndHour)) (goAdd day (3600 * 23)) 3600)
      BusinessAfterHour
  else
    tagHourLoop
      (tagHourLoop m (timerangeList day (goAdd day (3600 * bStartHour)) 3600) BusinessAfterHour)
      (timerangeList (goAdd day (3600 * bEndHour)) (goAdd day (3600 * 24)) 3600)
      WeekendHour

/-- `tagAfterhoursAndWeekends` (calendar.go:140): pass 2, sweeping the
schedule days with the business hours from `GetBusinessHours`. -/
def tagAfterhoursAndWeekends (c : Calendar) : Calendar :=
  let bh := GetBusinessHours c
  { c with
    CalendarHours := c.CalDays.foldl (tagDay (goHour bh.1) (goHour bh.2)) c.CalendarHours }

/-- The construction part of `NewCalendar` (calendar.go:42-66): flatten
the schedule's start and end, enumerate the days with a 24h timerange
(inclusive of both endpoints), load the timezone.  `LoadLocation` of the
configured zone name is modelled as the same fixed-offset location as
`ParsedTimezone`. -/
def initialCalendar (startDate endDate : GoTime) (conf : ScheduleConfig) : Calendar :=
  let fStartDate := FlattenTime startDate
  let fEndDate := FlattenTime endDate
  { CalStart := fStartDate
    CalEnd := fEndDate
    CalDays := timerangeList fStartDate fEndDate (3600 * 24)
    CalendarHours := []
    ScheduleConfig := conf
    CalTimezone := conf.ParsedTimezone }

/-- The state of the calendar after `NewCalendar` has run pass 1
(holidays) but before pass 2 (weekend/after-hours). -/
def afterHolidayPass (startDate endDate : GoTime) (conf : ScheduleConfig)
    (cals : ICalCalendars) : Calendar :=
  parseAndFilterPublicHolidayiCal (initialCalendar startDate endDate conf) cals

/-- `NewCalendar` (calendar.go:42): build the day list, run pass 1
(statutory holidays from the parsed feeds), then pass 2
(weekend/after-hours). -/
def NewCalendar (startDate endDate : GoTime) (conf : ScheduleConfig)
    (cals : ICalCalendars) : Calendar :=
  tagAfterhoursAndWeekends (afterHolidayPass startDate endDate conf cals)

/-- `GetHourTag` (calendar.go:180): look the timestamp up by its RFC3339
key — the timestamp is not flattened first — and default to
`BusinessHour` when absent. -/
def GetHourTag (c : Calendar) (h : GoTime) : Int :=
  match mapGet? c.CalendarHours (formatRFC3339 h) with
  | none => BusinessHour
  | some hourType => hourType

example : daysFromCivil 1970 1 1 = 0 := by decide
example : daysFromCivil 1 1 1 = -719162 := by decide
example : goWeekday ⟨0, 0⟩ = 4 := by decide
example : goWeekday ⟨172800, 0⟩ = 6 := by decide
example : parseYmdHis "1970-01-01 09:00:00" = some ⟨32400, 0⟩ := by decide
example : parseYmdHis "09:00:00" = none := by decide

/-! ## Basic lemmas about the map, the iterator and the time model -/

theorem mapGet?_cons (k k2 : HourKey) (v : Int) (m : HourMap) :
    mapGet? ((k2, v) :: m) k = if k2 = k then some v else mapGet? m k := rfl

theorem mapGetD_eq (m : HourMap) (k : HourKey) :
    mapGetD m k = (mapGet? m k).getD 0 := rfl

theorem wallClock_goAdd (t : GoTime) (d : Int) : wallClock (goAdd t d) = wallClock t + d := by
  simp [wallClock, goAdd]; ring

theorem offset_goAdd (t : GoTime) (d : Int) : (goAdd t d).offset = t.offset := rfl

theorem goAdd_goAdd (t : GoTime) (d e : Int) : goAdd (goAdd t d) e = goAdd t (d + e) := by
  simp [goAdd]; ring

theorem goAdd_zero (t : GoTime) : goAdd t 0 = t := by
  simp [goAdd]

theorem formatRFC3339_eq (t : GoTime) : formatRFC3339 t = (wallClock t, t.offset) := rfl

/-- Two timestamps have the same RFC3339 key iff they agree on wall clock
and offset (equivalently, they are the same `GoTime`). -/
theorem formatRFC3339_inj (s t : GoTime) : formatRFC3339 s = formatRFC3339 t ↔ s = t := by
  constructor
  · intro h
    have h1 : wallClock s = wallClock t := congrArg Prod.fst h
    have h2 : s.offset = t.offset := congrArg Prod.snd h
    cases s; cases t
    simp_all [wallClock]
  · intro h; rw [h]

theorem wallClock_FlattenTime (t : GoTime) :
    wallClock (FlattenTime t) = wallClock t - wallClock t % 3600 := by
  simp [FlattenTime, wallClock]

theorem offset_FlattenTime (t : GoTime) : (FlattenTime t).offset = t.offset := rfl

theorem FlattenTime_wall_mod (t : GoTime) : wallClock (FlattenTime t) % 3600 = 0 := by
  rw [wallClock_FlattenTime]
  omega

/-- Flattening is the identity on hour-aligned timestamps. -/
theorem FlattenTime_of_aligned (t : GoTime) (h : wallClock t % 3600 = 0) :
    FlattenTime t = t := by
  cases t with
  | mk i o =>
    simp [FlattenTime, wallClock] at *
    omega

theorem goHour_nonneg (t : GoTime) : 0 ≤ goHour t := by
  unfold goHour
  exact Int.emod_nonneg _ (by norm_num)

theorem goHour_lt (t : GoTime) : goHour t < 24 := by
  unfold goHour
  exact Int.emod_lt_of_pos _ (by norm_num)

/-- Membership in a `timerange` iteration: exactly the multiples of the
step from the start that do not pass the end. -/
theorem mem_timerangeList_iff (s e : GoTime) (step : Int) (hstep : 0 < step) (t : GoTime) :
    t ∈ timerangeList s e step ↔
      ∃ k : ℕ, step * (k : Int) ≤ e.instant - s.instant ∧ t = goAdd s (step * k) := by
  unfold timerangeList
  have hs2 : ((step.toNat : Int)) = step := Int.toNat_of_nonneg (le_of_lt hstep)
  by_cases hle : s.instant ≤ e.instant
  · have he2 : (((e.instant - s.instant).toNat : Int)) = e.instant - s.instant :=
      Int.toNat_of_nonneg (by omega)
    rw [if_pos hle]
    constructor
    · intro ht
      obtain ⟨k, hk, hfk⟩ := List.mem_map.mp ht
      rw [List.mem_range, Nat.lt_succ_iff,
        Nat.le_div_iff_mul_le (by omega : 0 < step.toNat)] at hk
      have h2 : (k : Int) * ((step.toNat : Int)) ≤ (((e.instant - s.instant).toNat : Int)) := by
        exact_mod_cast hk
      rw [hs2, he2] at h2
      exact ⟨k, by linarith, hfk.symm⟩
    · rintro ⟨k, hk, rfl⟩
      refine List.mem_map.mpr ⟨k, ?_, rfl⟩
      rw [List.mem_range, Nat.lt_succ_iff,
        Nat.le_div_iff_mul_le (by omega : 0 < step.toNat)]
      have h2 : (k : Int) * ((step.toNat : Int)) ≤ (((e.instant - s.instant).toNat : Int)) := by
        rw [hs2, he2]; linarith
      exact_mod_cast h2
  · rw [if_neg hle]
    simp only [List.not_mem_nil, false_iff]
    rintro ⟨k, hk, rfl⟩
    have h0 : (0 : Int) ≤ step * k := by positivity
    push_neg at hle
    linarith
/-- Specialised form: membership when the end is given as an offset from
the start. -/
theorem mem_timerangeList_goAdd_iff (s : GoTime) (M step : Int) (hstep : 0 < step)
    (t : GoTime) :
    t ∈ timerangeList s (goAdd s M) step ↔
      ∃ k : ℕ, step * (k : Int) ≤ M ∧ t = goAdd s (step * k) := by
  rw [mem_timerangeList_iff _ _ _ hstep]
  simp [goAdd]

/-! ## Generic fold invariants -/

theorem foldl_pres {α β : Type} (P : β → Prop) (step : β → α → β) :
    ∀ (l : List α) (m : β), (∀ b x, x ∈ l → P b → P (step b x)) → P m → P (l.foldl step m)
  | [], _, _, hm => hm
  | a :: l, m, hstep, hm =>
    foldl_pres P step l (step m a)
      (fun b x hx hb => hstep b x (List.mem_cons_of_mem a hx) hb)
      (hstep m a (List.mem_cons_self a l) hm)

theorem foldl_reach {α β : Type} (P : β → Prop) (step : β → α → β) :
    ∀ (l : List α) (m : β) (x : α), x ∈ l → (∀ b, P (step b x)) →
      (∀ b y, y ∈ l → P b → P (step b y)) → P (l.foldl step m)
  | [], _, _, hx, _, _ => absurd hx (List.not_mem_nil _)
  | a :: l, m, x, hx, hset, hkeep => by
    rcases List.mem_cons.mp hx with rfl | hx2
    · exact foldl_pres P step l (step m x)
        (fun b y hy hb => hkeep b y (List.mem_cons_of_mem x hy) hb) (hset m)
    · exact foldl_reach P step l (step m a) x hx2 hset
        (fun b y hy hb => hkeep b y (List.mem_cons_of_mem a hy) hb)

theorem foldl_chain {α β : Type} (R : β → β → Prop) (step : β → α → β)
    (hrefl : ∀ b, R b b) (htrans : ∀ a b c, R a b → R b c → R a c) :
    ∀ (l : List α) (m : β), (∀ b x, x ∈ l → R b (step b x)) → R m (l.foldl step m)
  | [], m, _ => hrefl m
  | a :: l, m, hstep => by
    have h1 : R m (step m a) := hstep m a (List.mem_cons_self a l)
    have h2 : R (step m a) (l.foldl step (step m a)) :=
      foldl_chain R step hrefl htrans l (step m a)
        (fun b x hx => hstep b x (List.mem_cons_of_mem a hx))
    exact htrans _ _ _ h1 h2

/-! ## Lemmas about the guarded pass-2 hour loop -/

theorem mapGet?_addHour (m : HourMap) (t : GoTime) (ty : Int) (k : HourKey) :
    mapGet? (addHour m t ty) k = if formatRFC3339 t = k then some ty else mapGet? m k := rfl

theorem mapGetD_addHour (m : HourMap) (t : GoTime) (ty : Int) (k : HourKey) :
    mapGetD (addHour m t ty) k = if formatRFC3339 t = k then ty else mapGetD m k := by
  by_cases h : formatRFC3339 t = k <;> simp [mapGetD, mapGet?_addHour, h]

theorem tagHourLoop_cons (m : HourMap) (t : GoTime) (ts : List GoTime) (tag : Int) :
    tagHourLoop m (t :: ts) tag =
      tagHourLoop
        (if mapGetD m (formatRFC3339 (FlattenTime t)) ≠ StatHolidayHour then
          addHour m (FlattenTime t) tag
        else m) ts tag := rfl

/-- Hours whose keys are not enumerated are untouched by the loop. -/
theorem tagHourLoop_preserve (ts : List GoTime) (m : HourMap) (tag : Int) (k : HourKey)
    (h : ∀ t ∈ ts, formatRFC3339 (FlattenTime t) ≠ k) :
    mapGet? (tagHourLoop m ts tag) k = mapGet? m k := by
  induction ts generalizing m with
  | nil => rfl
  | cons a ts ih =>
    rw [tagHourLoop_cons, ih _ (fun t ht => h t (List.mem_cons_of_mem a ht))]
    by_cases hg : mapGetD m (formatRFC3339 (FlattenTime a)) ≠ StatHolidayHour
    · rw [if_pos hg, mapGet?_addHour, if_neg (h a (List.mem_cons_self a ts))]
    · rw [if_neg hg]

/-- A key already carrying the loop's own (non-holiday) tag keeps it. -/
theorem tagHourLoop_keep (ts : List GoTime) (m : HourMap) (tag : Int) (k : HourKey)
    (htag : tag ≠ StatHolidayHour) (hv : mapGetD m k = tag) :
    mapGetD (tagHourLoop m ts tag) k = tag := by
  induction ts generalizing m with
  | nil => exact hv
  | cons a ts ih =>
    rw [tagHourLoop_cons]
    apply ih
    by_cases hg : mapGetD m (formatRFC3339 (FlattenTime a)) ≠ StatHolidayHour
    · rw [if_pos hg, mapGetD_addHour]
      by_cases hk : formatRFC3339 (FlattenTime a) = k
      · rw [if_pos hk]
      · rw [if_neg hk]; exact hv
    · rw [if_neg hg]; exact hv
  
/-- An enumerated hour not already tagged statutory-holiday ends up with
the loop's tag. -/
theorem tagHourLoop_write (ts : List GoTime) (m : HourMap) (tag : Int) (k : HourKey)
    (t : GoTime) (htag : tag ≠ StatHolidayHour) (ht : t ∈ ts)
    (hk : formatRFC3339 (FlattenTime t) = k) (hne : mapGetD m k ≠ StatHolidayHour) :
    mapGetD (tagHourLoop m ts tag) k = tag := by
  induction ts generalizing m with
  | nil => cases ht
  | cons a ts ih =>
    rw [tagHourLoop_cons]
    by_cases hka : formatRFC3339 (FlattenTime a) = k
    · rw [if_pos (by rw [hka]; exact hne)]
      exact tagHourLoop_keep ts _ tag k htag (by rw [mapGetD_addHour, if_pos hka])
    · rcases List.mem_cons.mp ht with rfl | ht2
      · exact absurd hk hka
      · by_cases hg : mapGetD m (formatRFC3339 (FlattenTime a)) ≠ StatHolidayHour
        · rw [if_pos hg]
          exact ih _ ht2 (by rw [mapGetD_addHour, if_neg hka]; exact hne)
        · rw [if_neg hg]; exact ih _ ht2 hne

/-- A statutory-holiday entry is never overwritten by the guarded loop. -/
theorem tagHourLoop_stat_of_stat (ts : List GoTime) (m : HourMap) (tag : Int) (k : HourKey)
    (h : mapGetD m k = StatHolidayHour) :
    mapGetD (tagHourLoop m ts tag) k = StatHolidayHour := by
  induction ts generalizing m with
  | nil => exact h
  | cons a ts ih =>
    rw [tagHourLoop_cons]
    by_cases hka : formatRFC3339 (FlattenTime a) = k
    · rw [if_neg (fun hcon => hcon (by rw [hka]; exact h))]
      exact ih _ h
    · by_cases hg : mapGetD m (formatRFC3339 (FlattenTime a)) ≠ StatHolidayHour
      · rw [if_pos hg]
        exact ih _ (by rw [mapGetD_addHour, if_neg hka]; exact h)
      · rw [if_neg hg]; exact ih _ h

/-- The guarded loop writes only non-holiday tags, so it cannot create a
statutory-holiday entry. -/
theorem tagHourLoop_ne_stat (ts : List GoTime) (m : HourMap) (tag : Int) (k : HourKey)
    (htag : tag ≠ StatHolidayHour) (h : mapGetD m k ≠ StatHolidayHour) :
    mapGetD (tagHourLoop m ts tag) k ≠ StatHolidayHour := by
  induction ts generalizing m with
  | nil => exact h
  | cons a ts ih =>
    rw [tagHourLoop_cons]
    by_cases hg : mapGetD m (formatRFC3339 (FlattenTime a)) ≠ StatHolidayHour
    · rw [if_pos hg]
      apply ih
      rw [mapGetD_addHour]
      by_cases hka : formatRFC3339 (FlattenTime a) = k
      · rw [if_pos hka]; exact htag
      · rw [if_neg hka]; exact h
    · rw [if_neg hg]; exact ih _ h

/-! ## Keys written by one day of pass 2 -/

/-- The RFC3339 key of hour `x` of an hour-aligned day. -/
theorem key_of_hour (day : GoTime) (x : Int) (hal : wallClock day % 3600 = 0) :
    formatRFC3339 (FlattenTime (goAdd day (3600 * x))) =
      (wallClock day + 3600 * x, day.offset) := by
  rw [FlattenTime_of_aligned _ (by rw [wallClock_goAdd]; omega)]
  rw [formatRFC3339_eq, wallClock_goAdd, offset_goAdd]

/-- Every element of an hour loop from `day` to `day + M` is some whole
hour `x` of the day with `0 ≤ x` and `3600·x ≤ M`. -/
theorem mem_hour_branch (day : GoTime) (M : Int) (t : GoTime)
    (hal : wallClock day % 3600 = 0) (ht : t ∈ timerangeList day (goAdd day M) 3600) :
    ∃ x : Int, 0 ≤ x ∧ 3600 * x ≤ M ∧
      formatRFC3339 (FlattenTime t) = (wallClock day + 3600 * x, day.offset) := by
  rw [mem_timerangeList_goAdd_iff _ _ _ (by norm_num)] at ht
  obtain ⟨k, hk, rfl⟩ := ht
  exact ⟨k, by positivity, hk, key_of_hour day k hal⟩

/-- Every element of an hour loop from `day + 3600·off` to `day + M` is
some whole hour `x` of the day with `off ≤ x` and `3600·x ≤ M`. -/
theorem mem_hour_branch_from (day : GoTime) (off M : Int) (t : GoTime)
    (hal : wallClock day % 3600 = 0)
    (ht : t ∈ timerangeList (goAdd day (3600 * off)) (goAdd day M) 3600) :
    ∃ x : Int, off ≤ x ∧ 3600 * x ≤ M ∧
      formatRFC3339 (FlattenTime t) = (wallClock day + 3600 * x, day.offset) := by
  rw [mem_timerangeList_iff _ _ _ (by norm_num)] at ht
  obtain ⟨k, hk, rfl⟩ := ht
  have he : (goAdd day M).instant - (goAdd day (3600 * off)).instant = M - 3600 * off := by
    simp [goAdd]
  rw [he] at hk
  refine ⟨off + k, by omega, by omega, ?_⟩
  rw [goAdd_goAdd]
  have h2 : 3600 * off + 3600 * (k : Int) = 3600 * (off + k) := by ring
  rw [h2, key_of_hour day (off + k) hal]

/-- Conversely, hour `x` of the day is enumerated by the loop from
`day` to `day + M` whenever `0 ≤ x` and `3600·x ≤ M`. -/
theorem hour_mem_branch (day : GoTime) (M x : Int) (hx : 0 ≤ x) (hxM : 3600 * x ≤ M) :
    goAdd day (3600 * x) ∈ timerangeList day (goAdd day M) 3600 := by
  rw [mem_timerangeList_goAdd_iff _ _ _ (by norm_num)]
  refine ⟨x.toNat, by omega, ?_⟩
  have h2 : (3600 : Int) * x = 3600 * (x.toNat : Int) := by omega
  rw [← h2]

/-- Conversely, hour `x` of the day is enumerated by the loop from
`day + 3600·off` to `day + M` whenever `off ≤ x` and `3600·x ≤ M`. -/
theorem hour_mem_branch_from (day : GoTime) (off M x : Int) (hx : off ≤ x)
    (hxM : 3600 * x ≤ M) :
    goAdd day (3600 * x) ∈ timerangeList (goAdd day (3600 * off)) (goAdd day M) 3600 := by
  rw [mem_timerangeList_iff _ _ _ (by norm_num)]
  refine ⟨(x - off).toNat, ?_, ?_⟩
  · simp only [goAdd]
    omega
  · rw [goAdd_goAdd]
    congr 1
    omega

/-! ## Per-day lemmas for pass 2 -/

/-- A key that is no hour `0..24` of the day is untouched by the day's
pass-2 processing. -/
theorem tagDay_preserve (bS bE : Int) (m : HourMap) (day : GoTime) (k : HourKey)
    (hal : wallClock day % 3600 = 0) (hbS : bS ≤ 24) (hbE : 0 ≤ bE)
    (hk : ∀ x : Int, 0 ≤ x → x ≤ 24 → (wallClock day + 3600 * x, day.offset) ≠ k) :
    mapGet? (tagDay bS bE m day) k = mapGet? m k := by
  unfold tagDay
  split
  · apply tagHourLoop_preserve
    intro t ht
    obtain ⟨x, hx0, hxM, hfmt⟩ := mem_hour_branch day _ t hal ht
    rw [hfmt]
    exact hk x hx0 (by omega)
  · have hmorning : ∀ m2 : HourMap,
        mapGet? (tagHourLoop m2 (timerangeList day (goAdd day (3600 * bS)) 3600)
          BusinessAfterHour) k = mapGet? m2 k := by
      intro m2
      apply tagHourLoop_preserve
      intro t ht
      obtain ⟨x, hx0, hxM, hfmt⟩ := mem_hour_branch day _ t hal ht
      rw [hfmt]
      exact hk x hx0 (by omega)
    split
    · rw [tagHourLoop_preserve, hmorning]
      intro t ht
      obtain ⟨x, hx0, hxM, hfmt⟩ := mem_hour_branch_from day bE _ t hal ht
      rw [hfmt]
      exact hk x (by omega) (by omega)
    · rw [tagHourLoop_preserve, hmorning]
      intro t ht
      obtain ⟨x, hx0, hxM, hfmt⟩ := mem_hour_branch_from day bE _ t hal ht
      rw [hfmt]
      exact hk x (by omega) (by omega)

/-- On a non-Friday weekday, a key that is neither an hour `0..bS` nor an
hour `bE..23` of the day is untouched. -/
theorem tagDay_preserve_weekday (bS bE : Int) (m : HourMap) (day : GoTime) (k : HourKey)
    (hal : wallClock day % 3600 = 0)
    (hw6 : goWeekday day ≠ 6) (hw0 : goWeekday day ≠ 0) (hw5 : goWeekday day ≠ 5)
    (hk : ∀ x : Int, (0 ≤ x ∧ x ≤ bS) ∨ (bE ≤ x ∧ x ≤ 23) →
      (wallClock day + 3600 * x, day.offset) ≠ k) :
    mapGet? (tagDay bS bE m day) k = mapGet? m k := by
  unfold tagDay
  rw [if_neg (by tauto), if_pos hw5]
  rw [tagHourLoop_preserve, tagHourLoop_preserve]
  · intro t ht
    obtain ⟨x, hx0, hxM, hfmt⟩ := mem_hour_branch day _ t hal ht
    rw [hfmt]
    exact hk x (Or.inl ⟨hx0, by omega⟩)
  · intro t ht
    obtain ⟨x, hx0, hxM, hfmt⟩ := mem_hour_branch_from day bE _ t hal ht
    rw [hfmt]
    exact hk x (Or.inr ⟨hx0, by omega⟩)

/-- Pass-2 day processing never creates a statutory-holiday entry. -/
theorem tagDay_ne_stat (bS bE : Int) (m : HourMap) (day : GoTime) (k : HourKey)
    (h : mapGetD m k ≠ StatHolidayHour) :
    mapGetD (tagDay bS bE m day) k ≠ StatHolidayHour := by
  unfold tagDay
  split
  · exact tagHourLoop_ne_stat _ _ _ _ (by decide) h
  · split
    · exact tagHourLoop_ne_stat _ _ _ _ (by decide)
        (tagHourLoop_ne_stat _ _ _ _ (by decide) h)
    · exact tagHourLoop_ne_stat _ _ _ _ (by decide)
        (tagHourLoop_ne_stat _ _ _ _ (by decide) h)

/-- Pass-2 day processing never overwrites a statutory-holiday entry. -/
theorem tagDay_stat_of_stat (bS bE : Int) (m : HourMap) (day : GoTime) (k : HourKey)
    (h : mapGetD m k = StatHolidayHour) :
    mapGetD (tagDay bS bE m day) k = StatHolidayHour := by
  unfold tagDay
  split
  · exact tagHourLoop_stat_of_stat _ _ _ _ h
  · split
    · exact tagHourLoop_stat_of_stat _ _ _ _ (tagHourLoop_stat_of_stat _ _ _ _ h)
    · exact tagHourLoop_stat_of_stat _ _ _ _ (tagHourLoop_stat_of_stat _ _ _ _ h)

/-- On a non-Friday weekday, a non-holiday hour `0..bS` or `bE..23` of the
day ends up tagged after-hours. -/
theorem tagDay_write_afterhours (bS bE : Int) (m : HourMap) (day : GoTime) (h : Int)
    (hal : wallClock day % 3600 = 0)
    (hw6 : goWeekday day ≠ 6) (hw0 : goWeekday day ≠ 0) (hw5 : goWeekday day ≠ 5)
    (hbE0 : 0 ≤ bE) (hbE23 : bE ≤ 23)
    (hh : (0 ≤ h ∧ h ≤ bS) ∨ (bE ≤ h ∧ h ≤ 23))
    (hne : mapGetD m (wallClock day + 3600 * h, day.offset) ≠ StatHolidayHour) :
    mapGetD (tagDay bS bE m day) (wallClock day + 3600 * h, day.offset) =
      BusinessAfterHour := by
  unfold tagDay
  rw [if_neg (by tauto), if_pos hw5]
  rcases hh with ⟨h0, hbs⟩ | ⟨hbe, h23⟩
  · apply tagHourLoop_keep _ _ _ _ (by decide)
    exact tagHourLoop_write _ _ _ _ (goAdd day (3600 * h)) (by decide)
      (hour_mem_branch day _ h h0 (by omega)) (key_of_hour day h hal) hne
  · apply tagHourLoop_write _ _ _ _ (goAdd day (3600 * h)) (by decide)
      (hour_mem_branch_from day bE _ h hbe (by omega)) (key_of_hour day h hal)
    exact tagHourLoop_ne_stat _ _ _ _ (by decide) hne

/-- On a Friday, a non-holiday hour `bE..24` of the day ends up tagged
weekend. -/
theorem tagDay_write_friday (bS bE : Int) (m : HourMap) (day : GoTime) (h : Int)
    (hal : wallClock day % 3600 = 0) (hw5 : goWeekday day = 5)
    (hh : bE ≤ h ∧ h ≤ 24)
    (hne : mapGetD m (wallClock day + 3600 * h, day.offset) ≠ StatHolidayHour) :
    mapGetD (tagDay bS bE m day) (wallClock day + 3600 * h, day.offset) = WeekendHour := by
  unfold tagDay
  rw [if_neg (by omega), if_neg (by omega)]
  apply tagHourLoop_write _ _ _ _ (goAdd day (3600 * h)) (by decide)
    (hour_mem_branch_from day bE _ h hh.1 (by omega)) (key_of_hour day h hal)
  exact tagHourLoop_ne_stat _ _ _ _ (by decide) hne

/-- On a Saturday or Sunday, a non-holiday hour `0..24` of the day ends up
tagged weekend. -/
theorem tagDay_write_weekend (bS bE : Int) (m : HourMap) (day : GoTime) (h : Int)
    (hal : wallClock day % 3600 = 0) (hw : goWeekday day = 6 ∨ goWeekday day = 0)
    (hh : 0 ≤ h ∧ h ≤ 24)
    (hne : mapGetD m (wallClock day + 3600 * h, day.offset) ≠ StatHolidayHour) :
    mapGetD (tagDay bS bE m day) (wallClock day + 3600 * h, day.offset) = WeekendHour := by
  unfold tagDay
  rw [if_pos hw]
  exact tagHourLoop_write _ _ _ _ (goAdd day (3600 * h)) (by decide)
    (hour_mem_branch day _ h hh.1 (by omega)) (key_of_hour day h hal) hne

/-! ## The pass-2 sweep over the schedule days -/

theorem mapGetD_congr (m m2 : HourMap) (k : HourKey) (h : mapGet? m k = mapGet? m2 k) :
    mapGetD m k = mapGetD m2 k := by
  rw [mapGetD_eq, mapGetD_eq, h]

/-- Unfolding `NewCalendar`: the day list survives both passes. -/
theorem NewCalendar_CalDays (s e : GoTime) (conf : ScheduleConfig) (cals : ICalCalendars) :
    (NewCalendar s e conf cals).CalDays =
      timerangeList (FlattenTime s) (FlattenTime e) (3600 * 24) := rfl

theorem NewCalendar_conf (s e : GoTime) (conf : ScheduleConfig) (cals : ICalCalendars) :
    (NewCalendar s e conf cals).ScheduleConfig = conf := rfl

theorem afterHolidayPass_CalDays (s e : GoTime) (conf : ScheduleConfig) (cals : ICalCalendars) :
    (afterHolidayPass s e conf cals).CalDays =
      timerangeList (FlattenTime s) (FlattenTime e) (3600 * 24) := rfl

/-- Unfolding `NewCalendar`: the final hour table is the pass-2 sweep over
the schedule days, started from the pass-1 table, with the parsed
business hours. -/
theorem NewCalendar_CalendarHours (s e : GoTime) (conf : ScheduleConfig)
    (cals : ICalCalendars) :
    (NewCalendar s e conf cals).CalendarHours =
      (timerangeList (FlattenTime s) (FlattenTime e) (3600 * 24)).foldl
        (tagDay (goHour (GetBusinessHours (afterHolidayPass s e conf cals)).1)
          (goHour (GetBusinessHours (afterHolidayPass s e conf cals)).2))
        (afterHolidayPass s e conf cals).CalendarHours := rfl

/-- Membership in the schedule-day list: the 24-hour steps from the
flattened start that do not pass the flattened end. -/
theorem mem_CalDays_iff (s e : GoTime) (conf : ScheduleConfig) (cals : ICalCalendars)
    (t : GoTime) :
    t ∈ (NewCalendar s e conf cals).CalDays ↔
      ∃ k : ℕ, 86400 * (k : Int) ≤ (FlattenTime e).instant - (FlattenTime s).instant ∧
        t = goAdd (FlattenTime s) (86400 * k) := by
  rw [NewCalendar_CalDays, mem_timerangeList_iff _ _ _ (by norm_num)]
  have h36 : ((3600 : Int) * 24) = 86400 := by norm_num
  rw [h36]


/-- Day `i` of the schedule: `i` 24-hour steps after the flattened
start. -/
def scheduleDay (fS : GoTime) (i : ℕ) : GoTime := goAdd fS (86400 * (i : Int))

theorem wallClock_scheduleDay (fS : GoTime) (i : ℕ) :
    wallClock (scheduleDay fS i) = wallClock fS + 86400 * (i : Int) := by
  unfold scheduleDay
  rw [wallClock_goAdd]

theorem offset_scheduleDay (fS : GoTime) (i : ℕ) : (scheduleDay fS i).offset = fS.offset := rfl

/-- The day list as an indexed range (needed to peel the last day off the
pass-2 fold). -/
theorem timerangeList_days_eq (fS fE : GoTime) (hle : fS.instant ≤ fE.instant) :
    timerangeList fS fE (3600 * 24) =
      (List.range ((fE.instant - fS.instant).toNat / 86400 + 1)).map (scheduleDay fS) := by
  unfold timerangeList
  rw [if_pos hle]
  have h36 : (((3600 : Int) * 24).toNat) = 86400 := rfl
  rw [h36]
  apply List.map_congr_left
  intro i _
  unfold scheduleDay
  have h2 : ((3600 : Int) * 24) * (i : Int) = 86400 * i := by ring
  rw [h2]

/-- If every processed day leaves the key alone, the whole pass-2 sweep
leaves it alone. -/
theorem pass2_fold_none (bS bE : Int) (fS : GoTime) (m : HourMap) (N : ℕ) (k : HourKey)
    (hpres : ∀ (m2 : HourMap) (i : ℕ), i ≤ N →
      mapGet? (tagDay bS bE m2 (scheduleDay fS i)) k = mapGet? m2 k) :
    mapGet? (((List.range (N + 1)).map (scheduleDay fS)).foldl (tagDay bS bE) m) k =
      mapGet? m k := by
  apply foldl_pres (fun m2 => mapGet? m2 k = mapGet? m k)
  · intro b x hx hb
    obtain ⟨i, hi, rfl⟩ := List.mem_map.mp hx
    rw [List.mem_range, Nat.lt_succ_iff] at hi
    rw [hpres b i hi, hb]
  · rfl

/-- The pass-2 sweep never creates a statutory-holiday entry. -/
theorem pass2_fold_ne_stat (bS bE : Int) (days : List GoTime) (m : HourMap) (k : HourKey)
    (h : mapGetD m k ≠ StatHolidayHour) :
    mapGetD (days.foldl (tagDay bS bE) m) k ≠ StatHolidayHour := by
  apply foldl_pres (fun m2 => mapGetD m2 k ≠ StatHolidayHour)
  · intro b x _ hb
    exact tagDay_ne_stat bS bE b x k hb
  · exact h

/-- The pass-2 sweep never overwrites a statutory-holiday entry. -/
theorem pass2_fold_stat_of_stat (bS bE : Int) (days : List GoTime) (m : HourMap) (k : HourKey)
    (h : mapGetD m k = StatHolidayHour) :
    mapGetD (days.foldl (tagDay bS bE) m) k = StatHolidayHour := by
  apply foldl_pres (fun m2 => mapGetD m2 k = StatHolidayHour)
  · intro b x _ hb
    exact tagDay_stat_of_stat bS bE b x k hb
  · exact h

/-- Main pass-2 evaluation: for hour `h ≤ 23` of schedule day `j`, the
sweep yields whatever day `j`'s own processing writes for it (later days
cannot touch an hour `≤ 23` of an earlier day, and earlier pass-2 days
cannot make it a holiday). -/
theorem pass2_fold_value (bS bE : Int) (fS : GoTime) (m : HourMap) (N j : ℕ) (h v : Int)
    (hj : j ≤ N) (hal : wallClock fS % 3600 = 0) (hh0 : 0 ≤ h) (hh23 : h ≤ 23)
    (hbS : bS ≤ 24) (hbE : 0 ≤ bE)
    (hwrite : ∀ m2 : HourMap,
      mapGetD m2 (wallClock fS + 86400 * j + 3600 * h, fS.offset) ≠ StatHolidayHour →
      mapGetD (tagDay bS bE m2 (scheduleDay fS j))
        (wallClock fS + 86400 * j + 3600 * h, fS.offset) = v)
    (hne : mapGetD m (wallClock fS + 86400 * j + 3600 * h, fS.offset) ≠ StatHolidayHour) :
    mapGetD (((List.range (N + 1)).map (scheduleDay fS)).foldl (tagDay bS bE) m)
      (wallClock fS + 86400 * j + 3600 * h, fS.offset) = v := by
  induction N with
  | zero =>
    have hj0 : j = 0 := Nat.le_zero.mp hj
    subst hj0
    have hone : (List.range (0 + 1)).map (scheduleDay fS) = [scheduleDay fS 0] := rfl
    rw [hone, List.foldl_cons, List.foldl_nil]
    exact hwrite m hne
  | succ N ih =>
    have hsplit : (List.range (N + 1 + 1)).map (scheduleDay fS) =
        (List.range (N + 1)).map (scheduleDay fS) ++ [scheduleDay fS (N + 1)] := by
      rw [List.range_succ, List.map_append, List.map_cons, List.map_nil]
    rw [hsplit, List.foldl_append, List.foldl_cons, List.foldl_nil]
    rcases Nat.lt_or_ge j (N + 1) with hlt | hge
    · -- day j is strictly before the last processed day N+1
      have hjN : j ≤ N := Nat.lt_succ_iff.mp hlt
      have hpres : mapGet?
          (tagDay bS bE
            (((List.range (N + 1)).map (scheduleDay fS)).foldl (tagDay bS bE) m)
            (scheduleDay fS (N + 1)))
          (wallClock fS + 86400 * j + 3600 * h, fS.offset) =
          mapGet? (((List.range (N + 1)).map (scheduleDay fS)).foldl (tagDay bS bE) m)
            (wallClock fS + 86400 * j + 3600 * h, fS.offset) := by
        apply tagDay_preserve bS bE _ _ _ (by rw [wallClock_scheduleDay]; omega) hbS hbE
        intro x hx0 hx24
        rw [wallClock_scheduleDay, offset_scheduleDay]
        intro hcon
        have h1 : wallClock fS + 86400 * ((N + 1 : ℕ) : Int) + 3600 * x =
            wallClock fS + 86400 * (j : Int) + 3600 * h := congrArg Prod.fst hcon
        have hjN2 : (j : Int) ≤ (N : Int) := by exact_mod_cast hjN
        have hN2 : ((N + 1 : ℕ) : Int) = (N : Int) + 1 := by push_cast; ring
        rw [hN2] at h1
        omega
      rw [mapGetD_congr _ _ _ hpres]
      exact ih hjN
    · -- day j is the last processed day N+1
      have hjeq : j = N + 1 := Nat.le_antisymm hj hge
      subst hjeq
      apply hwrite
      apply pass2_fold_ne_stat
      exact hne

/-! ## Pass-1 (holiday) lemmas -/

theorem tagEventHourLoop_cons (c : Calendar) (m : HourMap) (t : GoTime) (ts : List GoTime) :
    tagEventHourLoop c m (t :: ts) =
      tagEventHourLoop c
        (addHour m (AdjustForTimezone t c.ScheduleConfig.ParsedTimezone) StatHolidayHour)
        ts := rfl

/-- Pass-1 writes are all statutory-holiday, so an existing
statutory-holiday entry survives the loop. -/
theorem tagEventHourLoop_stat_keep (c : Calendar) (ts : List GoTime) (m : HourMap)
    (k : HourKey) (h : mapGetD m k = StatHolidayHour) :
    mapGetD (tagEventHourLoop c m ts) k = StatHolidayHour := by
  induction ts generalizing m with
  | nil => exact h
  | cons a ts ih =>
    rw [tagEventHourLoop_cons]
    apply ih
    rw [mapGetD_addHour]
    by_cases hk : formatRFC3339 (AdjustForTimezone a c.ScheduleConfig.ParsedTimezone) = k
    · rw [if_pos hk]
    · rw [if_neg hk]; exact h

/-- Every enumerated event hour ends up tagged statutory-holiday. -/
theorem tagEventHourLoop_mem (c : Calendar) (ts : List GoTime) (m : HourMap) (t : GoTime)
    (ht : t ∈ ts) :
    mapGetD (tagEventHourLoop c m ts)
      (formatRFC3339 (AdjustForTimezone t c.ScheduleConfig.ParsedTimezone)) =
      StatHolidayHour := by
  induction ts generalizing m with
  | nil => cases ht
  | cons a ts ih =>
    rw [tagEventHourLoop_cons]
    rcases List.mem_cons.mp ht with rfl | ht2
    · apply tagEventHourLoop_stat_keep
      rw [mapGetD_addHour, if_pos rfl]
    · exact ih _ ht2

/-- Hours outside the enumeration are untouched by the event loop. -/
theorem tagEventHourLoop_preserve (c : Calendar) (ts : List GoTime) (m : HourMap)
    (k : HourKey)
    (h : ∀ t ∈ ts, formatRFC3339 (AdjustForTimezone t c.ScheduleConfig.ParsedTimezone) ≠ k) :
    mapGet? (tagEventHourLoop c m ts) k = mapGet? m k := by
  induction ts generalizing m with
  | nil => rfl
  | cons a ts ih =>
    rw [tagEventHourLoop_cons, ih _ (fun t ht => h t (List.mem_cons_of_mem a ht))]
    rw [mapGet?_addHour, if_neg (h a (List.mem_cons_self a ts))]

/-- The event loop either leaves a key alone or sets it to
statutory-holiday. -/
theorem tagEventHourLoop_none_or_stat (c : Calendar) (ts : List GoTime) (m : HourMap)
    (k : HourKey) :
    mapGet? (tagEventHourLoop c m ts) k = mapGet? m k ∨
      mapGet? (tagEventHourLoop c m ts) k = some StatHolidayHour := by
  induction ts generalizing m with
  | nil => exact Or.inl rfl
  | cons a ts ih =>
    rw [tagEventHourLoop_cons]
    rcases ih (addHour m (AdjustForTimezone a c.ScheduleConfig.ParsedTimezone) StatHolidayHour)
      with h1 | h1
    · rw [h1, mapGet?_addHour]
      by_cases hk : formatRFC3339 (AdjustForTimezone a c.ScheduleConfig.ParsedTimezone) = k
      · rw [if_pos hk]; exact Or.inr rfl
      · rw [if_neg hk]; exact Or.inl rfl
    · exact Or.inr h1

/-- The enumerated hours of an event: the whole hours from its flattened
start to one hour before its flattened end. -/
def eventHourRange (event : Event) : List GoTime :=
  timerangeList (FlattenTime event.Start) (goAdd (FlattenTime event.End) (-3600)) 3600

theorem tagEventHours_eq (c : Calendar) (m : HourMap) (event : Event) :
    tagEventHours c m event =
      if filterEvent c event.Summary then tagEventHourLoop c m (eventHourRange event)
      else m := rfl

theorem tagEventHours_stat_keep (c : Calendar) (m : HourMap) (event : Event) (k : HourKey)
    (h : mapGetD m k = StatHolidayHour) :
    mapGetD (tagEventHours c m event) k = StatHolidayHour := by
  rw [tagEventHours_eq]
  split
  · exact tagEventHourLoop_stat_keep c _ m k h
  · exact h

theorem tagEventHours_none_or_stat (c : Calendar) (m : HourMap) (event : Event) (k : HourKey) :
    mapGet? (tagEventHours c m event) k = mapGet? m k ∨
      mapGet? (tagEventHours c m event) k = some StatHolidayHour := by
  rw [tagEventHours_eq]
  split
  · exact tagEventHourLoop_none_or_stat c _ m k
  · exact Or.inl rfl

/-- A whitelisted event's enumerated hour is tagged statutory-holiday
after the whole event list of a day is processed. -/
theorem eventsFold_stat (c : Calendar) (evs : List Event) (m : HourMap) (event : Event)
    (t : GoTime) (hev : event ∈ evs) (hfilter : filterEvent c event.Summary = true)
    (ht : t ∈ eventHourRange event) :
    mapGetD (evs.foldl (tagEventHours c) m)
      (formatRFC3339 (AdjustForTimezone t c.ScheduleConfig.ParsedTimezone)) =
      StatHolidayHour := by
  apply foldl_reach
    (fun m2 => mapGetD m2
      (formatRFC3339 (AdjustForTimezone t c.ScheduleConfig.ParsedTimezone)) = StatHolidayHour)
    (tagEventHours c) evs m event hev
  · intro b
    rw [tagEventHours_eq, if_pos hfilter]
    exact tagEventHourLoop_mem c _ b t ht
  · intro b y _ hb
    exact tagEventHours_stat_keep c b y _ hb

theorem eventsFold_stat_keep (c : Calendar) (evs : List Event) (m : HourMap) (k : HourKey)
    (h : mapGetD m k = StatHolidayHour) :
    mapGetD (evs.foldl (tagEventHours c) m) k = StatHolidayHour := by
  apply foldl_pres (fun m2 => mapGetD m2 k = StatHolidayHour)
  · intro b x _ hb
    exact tagEventHours_stat_keep c b x k hb
  · exact h

theorem eventsFold_none_or_stat (c : Calendar) (evs : List Event) (m : HourMap) (k : HourKey) :
    mapGet? (evs.foldl (tagEventHours c) m) k = mapGet? m k ∨
      mapGet? (evs.foldl (tagEventHours c) m) k = some StatHolidayHour := by
  apply foldl_chain
    (fun m1 m2 => mapGet? m2 k = mapGet? m1 k ∨ mapGet? m2 k = some StatHolidayHour)
  · intro b; exact Or.inl rfl
  · intro a b d hab hbd
    rcases hbd with h1 | h1
    · rcases hab with h2 | h2
      · exact Or.inl (h1.trans h2)
      · exact Or.inr (h1.trans h2)
    · exact Or.inr h1
  · intro b x _
    exact tagEventHours_none_or_stat c b x k

/-- The per-schedule-day step of pass 1. -/
def holidayDayStep (c : Calendar) (eventsByDates : EventsByDates) (acc : HourMap)
    (schedDay : GoTime) : HourMap :=
  match lookupEvents eventsByDates (formatYmdHis (FlattenTime schedDay)) with
  | none => acc
  | some events => events.foldl (tagEventHours c) acc

theorem tagCalendarEvents_eq (c : Calendar) (eventsByDates : EventsByDates) (m : HourMap) :
    tagCalendarEvents c eventsByDates m =
      c.CalDays.foldl (holidayDayStep c eventsByDates) m := rfl

theorem holidayDayStep_stat_keep (c : Calendar) (ebd : EventsByDates) (m : HourMap)
    (d : GoTime) (k : HourKey) (h : mapGetD m k = StatHolidayHour) :
    mapGetD (holidayDayStep c ebd m d) k = StatHolidayHour := by
  unfold holidayDayStep
  split
  · exact h
  · exact eventsFold_stat_keep c _ m k h

theorem holidayDayStep_none_or_stat (c : Calendar) (ebd : EventsByDates) (m : HourMap)
    (d : GoTime) (k : HourKey) :
    mapGet? (holidayDayStep c ebd m d) k = mapGet? m k ∨
      mapGet? (holidayDayStep c ebd m d) k = some StatHolidayHour := by
  unfold holidayDayStep
  split
  · exact Or.inl rfl
  · exact eventsFold_none_or_stat c _ m k

theorem tagCalendarEvents_stat (c : Calendar) (ebd : EventsByDates) (m : HourMap)
    (schedDay : GoTime) (evs : List Event) (event : Event) (t : GoTime)
    (hday : schedDay ∈ c.CalDays)
    (hlookup : lookupEvents ebd (formatYmdHis (FlattenTime schedDay)) = some evs)
    (hev : event ∈ evs) (hfilter : filterEvent c event.Summary = true)
    (ht : t ∈ eventHourRange event) :
    mapGetD (tagCalendarEvents c ebd m)
      (formatRFC3339 (AdjustForTimezone t c.ScheduleConfig.ParsedTimezone)) =
      StatHolidayHour := by
  rw [tagCalendarEvents_eq]
  apply foldl_reach
    (fun m2 => mapGetD m2
      (formatRFC3339 (AdjustForTimezone t c.ScheduleConfig.ParsedTimezone)) = StatHolidayHour)
    (holidayDayStep c ebd) c.CalDays m schedDay hday
  · intro b
    unfold holidayDayStep
    rw [hlookup]
    exact eventsFold_stat c evs b event t hev hfilter ht
  · intro b y _ hb
    exact holidayDayStep_stat_keep c ebd b y _ hb

theorem tagCalendarEvents_stat_keep (c : Calendar) (ebd : EventsByDates) (m : HourMap)
    (k : HourKey) (h : mapGetD m k = StatHolidayHour) :
    mapGetD (tagCalendarEvents c ebd m) k = StatHolidayHour := by
  rw [tagCalendarEvents_eq]
  apply foldl_pres (fun m2 => mapGetD m2 k = StatHolidayHour)
  · intro b x _ hb
    exact holidayDayStep_stat_keep c ebd b x k hb
  · exact h

theorem tagCalendarEvents_none_or_stat (c : Calendar) (ebd : EventsByDates) (m : HourMap)
    (k : HourKey) :
    mapGet? (tagCalendarEvents c ebd m) k = mapGet? m k ∨
      mapGet? (tagCalendarEvents c ebd m) k = some StatHolidayHour := by
  rw [tagCalendarEvents_eq]
  apply foldl_chain
    (fun m1 m2 => mapGet? m2 k = mapGet? m1 k ∨ mapGet? m2 k = some StatHolidayHour)
  · intro b; exact Or.inl rfl
  · intro a b d hab hbd
    rcases hbd with h1 | h1
    · rcases hab with h2 | h2
      · exact Or.inl (h1.trans h2)
      · exact Or.inr (h1.trans h2)
    · exact Or.inr h1
  · intro b x _
    exact holidayDayStep_none_or_stat c ebd b x k

/-- Unfolding pass 1 inside `NewCalendar`. -/
theorem afterHolidayPass_hours (s e : GoTime) (conf : ScheduleConfig) (cals : ICalCalendars) :
    (afterHolidayPass s e conf cals).CalendarHours =
      cals.foldl (fun acc cal => tagCalendarEvents (initialCalendar s e conf) cal acc) [] := rfl

/-- A reachable whitelisted event hour is tagged statutory-holiday by
pass 1. -/
theorem pass1_stat (s e : GoTime) (conf : ScheduleConfig) (cals : ICalCalendars)
    (ebd : EventsByDates) (schedDay : GoTime) (evs : List Event) (event : Event) (t : GoTime)
    (hcal : ebd ∈ cals) (hday : schedDay ∈ (initialCalendar s e conf).CalDays)
    (hlookup : lookupEvents ebd (formatYmdHis (FlattenTime schedDay)) = some evs)
    (hev : event ∈ evs)
    (hfilter : filterEvent (initialCalendar s e conf) event.Summary = true)
    (ht : t ∈ eventHourRange event) :
    mapGetD (afterHolidayPass s e conf cals).CalendarHours
      (formatRFC3339 (AdjustForTimezone t conf.ParsedTimezone)) = StatHolidayHour := by
  rw [afterHolidayPass_hours]
  have hconf : conf.ParsedTimezone = (initialCalendar s e conf).ScheduleConfig.ParsedTimezone :=
    rfl
  rw [hconf]
  apply foldl_reach
    (fun m2 => mapGetD m2
      (formatRFC3339
        (AdjustForTimezone t (initialCalendar s e conf).ScheduleConfig.ParsedTimezone)) =
      StatHolidayHour)
    (fun acc cal => tagCalendarEvents (initialCalendar s e conf) cal acc) cals [] ebd hcal
  · intro b
    exact tagCalendarEvents_stat (initialCalendar s e conf) ebd b schedDay evs event t
      hday hlookup hev hfilter ht
  · intro b y _ hb
    exact tagCalendarEvents_stat_keep (initialCalendar s e conf) y b _ hb

/-- Pass 1, started from the empty table, either leaves a key absent or
sets it to statutory-holiday. -/
theorem pass1_none_or_stat (s e : GoTime) (conf : ScheduleConfig) (cals : ICalCalendars)
    (k : HourKey) :
    mapGet? (afterHolidayPass s e conf cals).CalendarHours k = none ∨
      mapGet? (afterHolidayPass s e conf cals).CalendarHours k = some StatHolidayHour := by
  rw [afterHolidayPass_hours]
  have hbase : mapGet? ([] : HourMap) k = none := rfl
  have hchain := foldl_chain
    (fun m1 m2 => mapGet? m2 k = mapGet? m1 k ∨ mapGet? m2 k = some StatHolidayHour)
    (fun acc cal => tagCalendarEvents (initialCalendar s e conf) cal acc)
    (fun b => Or.inl rfl)
    (fun a b d hab hbd => by
      rcases hbd with h1 | h1
      · rcases hab with h2 | h2
        · exact Or.inl (h1.trans h2)
        · exact Or.inr (h1.trans h2)
      · exact Or.inr h1)
    cals []
    (fun b x _ => tagCalendarEvents_none_or_stat (initialCalendar s e conf) x b k)
  rcases hchain with h1 | h1
  · exact Or.inl (h1.trans hbase)
  · exact Or.inr h1

/-! ## Lookup helpers and concrete fixtures -/

theorem GetHourTag_eq (c : Calendar) (t : GoTime) :
    GetHourTag c t = (mapGet? c.CalendarHours (formatRFC3339 t)).getD BusinessHour := by
  unfold GetHourTag
  cases mapGet? c.CalendarHours (formatRFC3339 t) <;> rfl

theorem GetHourTag_of_none (c : Calendar) (t : GoTime)
    (h : mapGet? c.CalendarHours (formatRFC3339 t) = none) :
    GetHourTag c t = BusinessHour := by
  rw [GetHourTag_eq, h]
  rfl

theorem GetHourTag_of_getD_ne (c : Calendar) (t : GoTime) (v : Int) (hv : v ≠ 0)
    (h : mapGetD c.CalendarHours (formatRFC3339 t) = v) :
    GetHourTag c t = v := by
  rw [GetHourTag_eq]
  rw [mapGetD_eq] at h
  cases hm : mapGet? c.CalendarHours (formatRFC3339 t) with
  | none =>
    rw [hm] at h
    simp only [Option.getD_none] at h
    exact absurd h.symm hv
  | some w =>
    rw [hm] at h
    simp only [Option.getD_none, Option.getD_some] at h ⊢
    exact h

/-- Test configuration: UTC schedule, business hours 09:00 to 18:00, one
whitelisted holiday name. -/
def testConf : ScheduleConfig :=
  { Timezone := "UTC"
    ParsedTimezone := 0
    Holidays := ["Test Holiday"]
    BusinessHours := { Start := "1970-01-01 09:00:00", End := "1970-01-01 18:00:00" } }

/-- 1970-01-01 00:00 UTC (a Thursday). -/
def epochDay : GoTime := ⟨0, 0⟩

/-- 1970-01-02 00:00 UTC (a Friday). -/
def friMidnight : GoTime := ⟨86400, 0⟩

/-- 1970-01-03 00:00 UTC (a Saturday). -/
def satMidnight : GoTime := ⟨172800, 0⟩

/-- 1970-01-05 00:00 UTC (a Monday). -/
def monMidnight : GoTime := ⟨345600, 0⟩

/-- One-day schedule over the Saturday, no feed events. -/
def calSat : Calendar := NewCalendar satMidnight satMidnight testConf []

/-- One-day schedule over the Monday, no feed events. -/
def calMon : Calendar := NewCalendar monMidnight monMidnight testConf []

/-- One-day schedule over the Friday, no feed events. -/
def calFri : Calendar := NewCalendar friMidnight friMidnight testConf []

/-- A whole-day whitelisted event on the Saturday. -/
def testEvent : Event :=
  { Summary := "Test Holiday", Start := satMidnight, End := ⟨172800 + 86400, 0⟩ }

/-- A feed with the Saturday event keyed by the Saturday's YmdHis key. -/
def testFeed : EventsByDates := [(172800, [testEvent])]

/-- One-day schedule over the Saturday with the whole-day holiday. -/
def calHoliday : Calendar := NewCalendar satMidnight satMidnight testConf [testFeed]

/-- The calendar state used to feed per-event lemmas. -/
def calInit : Calendar := initialCalendar satMidnight satMidnight testConf

/-! ## Claim C10 -/

set_option maxRecDepth 10000 in
/-- C10: the Hour Tag Table is keyed by the RFC3339 rendering of the
hour-start, which includes the UTC offset, so `GetHourTag` is
representation-sensitive: Saturday 09:00 presented in UTC hits the
weekend entry, while the very same instant presented at offset +01:00
produces a different key, misses, and falls back to the business-hour
default. -/
theorem C10_rfc3339_key_offset_sensitive :
    (⟨172800 + 9 * 3600, 0⟩ : GoTime).instant = (⟨172800 + 9 * 3600, 3600⟩ : GoTime).instant ∧
    formatRFC3339 ⟨172800 + 9 * 3600, 0⟩ ≠ formatRFC3339 ⟨172800 + 9 * 3600, 3600⟩ ∧
    GetHourTag calSat ⟨172800 + 9 * 3600, 0⟩ = WeekendHour ∧
    GetHourTag calSat ⟨172800 + 9 * 3600, 3600⟩ = BusinessHour :=
  ⟨rfl, by decide, by decide, by decide⟩

/-! ## Claim C8 -/

/-- C8: classification is deterministic — two calendars built from the
same schedule window, configuration and parsed feed input have identical
hour tables, hence identical lookups. -/
theorem C8_deterministic (s e : GoTime) (conf : ScheduleConfig) (cals : ICalCalendars)
    (c1 c2 : Calendar) (h1 : c1 = NewCalendar s e conf cals)
    (h2 : c2 = NewCalendar s e conf cals) :
    c1.CalendarHours = c2.CalendarHours ∧ ∀ t : GoTime, GetHourTag c1 t = GetHourTag c2 t := by
  subst h1
  subst h2
  exact ⟨rfl, fun t => rfl⟩

theorem C8_deterministic_witness :
    calSat = NewCalendar satMidnight satMidnight testConf [] ∧
    (calSat.CalendarHours = calSat.CalendarHours ∧
      ∀ t : GoTime, GetHourTag calSat t = GetHourTag calSat t) :=
  ⟨rfl, C8_deterministic satMidnight satMidnight testConf [] calSat calSat rfl rfl⟩

/-! ## Claim C9 -/

/-- C9: `GetBusinessHours` discards parse errors — a configured
business-hours string that fails to parse under the fixed layout
`2006-01-02 15:04:05` silently becomes the zero time, whose hour is 0,
so the classifier treats that boundary as midnight with no error
reported. -/
theorem C9_parse_error_zero (c : Calendar) :
    (parseYmdHis c.ScheduleConfig.BusinessHours.Start = none →
      (GetBusinessHours c).1 = zeroTime ∧ goHour (GetBusinessHours c).1 = 0) ∧
    (parseYmdHis c.ScheduleConfig.BusinessHours.End = none →
      (GetBusinessHours c).2 = zeroTime ∧ goHour (GetBusinessHours c).2 = 0) := by
  constructor
  · intro h
    have h1 : (GetBusinessHours c).1 = zeroTime := by
      unfold GetBusinessHours
      rw [h]
      rfl
    exact ⟨h1, by rw [h1]; decide⟩
  · intro h
    have h1 : (GetBusinessHours c).2 = zeroTime := by
      unfold GetBusinessHours
      rw [h]
      rfl
    exact ⟨h1, by rw [h1]; decide⟩

/-- A configuration whose business-hours strings are plain `HH:MM:SS`
values, which do not parse under the fixed date-bearing layout. -/
def badConf : ScheduleConfig :=
  { Timezone := "UTC"
    ParsedTimezone := 0
    Holidays := []
    BusinessHours := { Start := "09:00:00", End := "18:00:00" } }

/-- A calendar built over that configuration. -/
def calBadConf : Calendar := initialCalendar epochDay epochDay badConf

theorem C9_parse_error_zero_witness :
    parseYmdHis calBadConf.ScheduleConfig.BusinessHours.Start = none ∧
    ((GetBusinessHours calBadConf).1 = zeroTime ∧ goHour (GetBusinessHours calBadConf).1 = 0) :=
  ⟨by decide, (C9_parse_error_zero calBadConf).1 (by decide)⟩

/-! ## Claim C5 -/

set_option maxRecDepth 10000 in
/-- C5 counterexample: with schedule start 1970-01-01 00:00 and end
1970-01-02 00:00 (both midnights), the built day list contains the end
date as well (the claim says the end is excluded); and a start of
1970-01-01 10:30 is truncated to 10:30's hour (10:00), not to
midnight. -/
theorem C5_counterexample :
    (NewCalendar epochDay (goAdd epochDay 86400) testConf []).CalDays =
      [epochDay, goAdd epochDay 86400] ∧
    (NewCalendar ⟨37800, 0⟩ ⟨37800, 0⟩ testConf []).CalStart = ⟨36000, 0⟩ :=
  ⟨by decide, by decide⟩

/-- C5 (amended): `NewCalendar` truncates the schedule start and end to
the hour (not to midnight) and builds CalDays as the 24-hour steps from
the flattened start that do not pass the flattened end — so the start is
included, and the end date is also included whenever it is a whole
number of days after the start (the iteration is inclusive, not
end-exclusive). -/
theorem C5_calendar_days (s e : GoTime) (conf : ScheduleConfig) (cals : ICalCalendars) :
    (NewCalendar s e conf cals).CalStart = FlattenTime s ∧
    (NewCalendar s e conf cals).CalEnd = FlattenTime e ∧
    (∀ t : GoTime, t ∈ (NewCalendar s e conf cals).CalDays ↔
      ∃ k : ℕ, 86400 * (k : Int) ≤ (FlattenTime e).instant - (FlattenTime s).instant ∧
        t = goAdd (FlattenTime s) (86400 * k)) :=
  ⟨rfl, rfl, fun t => mem_CalDays_iff s e conf cals t⟩

/-! ## Claim C3: GetHourTag does not flatten its argument -/

set_option maxRecDepth 10000 in
/-- C3 counterexample: Saturday 09:30 lies inside the weekend-tagged hour
09:00, but `GetHourTag` looks up the unflattened 09:30 key, misses, and
returns the business default — while the flattened key returns the
weekend tag. -/
theorem C3_counterexample :
    GetHourTag calSat ⟨172800 + 9 * 3600 + 1800, 0⟩ = BusinessHour ∧
    GetHourTag calSat (FlattenTime ⟨172800 + 9 * 3600 + 1800, 0⟩) = WeekendHour :=
  ⟨by decide, by decide⟩

/-- Every key of the table has an hour-aligned wall clock. -/
def alignedMap (m : HourMap) : Prop :=
  ∀ k : HourKey, ∀ v : Int, mapGet? m k = some v → k.1 % 3600 = 0

theorem alignedMap_nil : alignedMap [] := fun _ _ h => by cases h

theorem alignedMap_addHour (m : HourMap) (t : GoTime) (ty : Int)
    (hm : alignedMap m) (ht : wallClock t % 3600 = 0) : alignedMap (addHour m t ty) := by
  intro k v h
  rw [mapGet?_addHour] at h
  by_cases hk : formatRFC3339 t = k
  · rw [← hk]
    exact ht
  · rw [if_neg hk] at h
    exact hm k v h

theorem tagHourLoop_aligned (ts : List GoTime) (m : HourMap) (tag : Int)
    (hm : alignedMap m) : alignedMap (tagHourLoop m ts tag) := by
  induction ts generalizing m with
  | nil => exact hm
  | cons a ts ih =>
    rw [tagHourLoop_cons]
    apply ih
    split
    · exact alignedMap_addHour m _ tag hm (FlattenTime_wall_mod a)
    · exact hm

theorem tagDay_aligned (bS bE : Int) (m : HourMap) (day : GoTime) (hm : alignedMap m) :
    alignedMap (tagDay bS bE m day) := by
  unfold tagDay
  split
  · exact tagHourLoop_aligned _ _ _ hm
  · split
    · exact tagHourLoop_aligned _ _ _ (tagHourLoop_aligned _ _ _ hm)
    · exact tagHourLoop_aligned _ _ _ (tagHourLoop_aligned _ _ _ hm)

/-- The wall clock of a timezone-adjusted timestamp is the flattened
source's absolute instant. -/
theorem AdjustForTimezone_wall (t : GoTime) (loc : Int) :
    wallClock (AdjustForTimezone t loc) = (FlattenTime t).instant := by
  unfold AdjustForTimezone goIn goAdd wallClock
  ring

theorem FlattenTime_instant (t : GoTime) :
    (FlattenTime t).instant = wallClock t - wallClock t % 3600 - t.offset := rfl

theorem AdjustForTimezone_offset (t : GoTime) (loc : Int) :
    (AdjustForTimezone t loc).offset = loc := rfl

/-- Events presented at whole-hour offsets produce hour-aligned adjusted
keys. -/
theorem adjust_key_aligned (t : GoTime) (loc : Int) (h : t.offset % 3600 = 0) :
    (formatRFC3339 (AdjustForTimezone t loc)).1 % 3600 = 0 := by
  show wallClock (AdjustForTimezone t loc) % 3600 = 0
  rw [AdjustForTimezone_wall, FlattenTime_instant]
  omega

theorem eventHourRange_offset (event : Event) (t : GoTime) (ht : t ∈ eventHourRange event) :
    t.offset = event.Start.offset := by
  unfold eventHourRange at ht
  rw [mem_timerangeList_iff _ _ _ (by norm_num)] at ht
  obtain ⟨k, hk, rfl⟩ := ht
  rw [offset_goAdd, offset_FlattenTime]

theorem tagEventHourLoop_aligned (c : Calendar) (ts : List GoTime) (m : HourMap)
    (hts : ∀ t ∈ ts, t.offset % 3600 = 0) (hm : alignedMap m) :
    alignedMap (tagEventHourLoop c m ts) := by
  induction ts generalizing m with
  | nil => exact hm
  | cons a ts ih =>
    rw [tagEventHourLoop_cons]
    have ha := hts a (List.mem_cons_self a ts)
    refine ih _ (fun t ht => hts t (List.mem_cons_of_mem a ht)) ?_
    apply alignedMap_addHour m _ _ hm
    rw [AdjustForTimezone_wall, FlattenTime_instant]
    omega

theorem tagEventHours_aligned (c : Calendar) (m : HourMap) (event : Event)
    (hoffev : event.Start.offset % 3600 = 0) (hm : alignedMap m) :
    alignedMap (tagEventHours c m event) := by
  rw [tagEventHours_eq]
  split
  · apply tagEventHourLoop_aligned c _ m _ hm
    intro t ht
    rw [eventHourRange_offset event t ht]
    exact hoffev
  · exact hm

theorem lookupEvents_mem (m : EventsByDates) (k : Int) (evs : List Event)
    (h : lookupEvents m k = some evs) : (k, evs) ∈ m := by
  induction m with
  | nil => cases h
  | cons p rest ih =>
    obtain ⟨k2, v⟩ := p
    unfold lookupEvents at h
    by_cases hk : k2 = k
    · rw [if_pos hk] at h
      have hv : v = evs := Option.some.inj h
      subst hv
      subst hk
      exact List.mem_cons_self _ _
    · rw [if_neg hk] at h
      exact List.mem_cons_of_mem _ (ih h)

theorem eventsFold_aligned (c : Calendar) (evs : List Event) (m : HourMap)
    (hoff : ∀ ev ∈ evs, ev.Start.offset % 3600 = 0) (hm : alignedMap m) :
    alignedMap (evs.foldl (tagEventHours c) m) :=
  foldl_pres alignedMap (tagEventHours c) evs m
    (fun b x hx hb => tagEventHours_aligned c b x (hoff x hx) hb) hm

theorem holidayDayStep_aligned (c : Calendar) (ebd : EventsByDates) (m : HourMap)
    (d : GoTime) (hoff : ∀ p ∈ ebd, ∀ ev ∈ p.2, ev.Start.offset % 3600 = 0)
    (hm : alignedMap m) : alignedMap (holidayDayStep c ebd m d) := by
  unfold holidayDayStep
  cases hl : lookupEvents ebd (formatYmdHis (FlattenTime d)) with
  | none => exact hm
  | some evs =>
    apply eventsFold_aligned c evs m _ hm
    intro ev hev
    exact hoff _ (lookupEvents_mem ebd _ evs hl) ev hev

theorem tagCalendarEvents_aligned (c : Calendar) (ebd : EventsByDates) (m : HourMap)
    (hoff : ∀ p ∈ ebd, ∀ ev ∈ p.2, ev.Start.offset % 3600 = 0) (hm : alignedMap m) :
    alignedMap (tagCalendarEvents c ebd m) := by
  rw [tagCalendarEvents_eq]
  exact foldl_pres alignedMap (holidayDayStep c ebd) c.CalDays m
    (fun b x _ hb => holidayDayStep_aligned c ebd b x hoff hb) hm

/-- Every key the full build writes is hour-aligned, provided the feed
events are presented at whole-hour offsets. -/
theorem NewCalendar_aligned (s e : GoTime) (conf : ScheduleConfig) (cals : ICalCalendars)
    (hoff : ∀ cal ∈ cals, ∀ p ∈ cal, ∀ ev ∈ p.2, ev.Start.offset % 3600 = 0) :
    alignedMap (NewCalendar s e conf cals).CalendarHours := by
  rw [NewCalendar_CalendarHours]
  have hpass1 : alignedMap (afterHolidayPass s e conf cals).CalendarHours := by
    rw [afterHolidayPass_hours]
    exact foldl_pres alignedMap
      (fun acc cal => tagCalendarEvents (initialCalendar s e conf) cal acc) cals []
      (fun b x hx hb => tagCalendarEvents_aligned (initialCalendar s e conf) x b (hoff x hx) hb)
      alignedMap_nil
  exact foldl_pres alignedMap (tagDay _ _) _ _
    (fun b x _ hb => tagDay_aligned _ _ b x hb) hpass1

/-- C3 (amended): `GetHourTag` performs no flattening — it looks the
timestamp up under its exact RFC3339 key and returns the business-hour
default when that key is absent; since every key the build writes is
hour-aligned (for feeds presented at whole-hour offsets), any timestamp
with non-zero minutes or seconds misses and returns the business-hour
tag, even inside a tagged hour.  There is no error path. -/
theorem C3_unflattened_lookup (s e : GoTime) (conf : ScheduleConfig) (cals : ICalCalendars)
    (t : GoTime)
    (hoff : ∀ cal ∈ cals, ∀ p ∈ cal, ∀ ev ∈ p.2, ev.Start.offset % 3600 = 0)
    (ht : wallClock t % 3600 ≠ 0) :
    GetHourTag (NewCalendar s e conf cals) t = BusinessHour := by
  apply GetHourTag_of_none
  cases hm : mapGet? (NewCalendar s e conf cals).CalendarHours (formatRFC3339 t) with
  | none => rfl
  | some v =>
    exact absurd (NewCalendar_aligned s e conf cals hoff (formatRFC3339 t) v hm) ht

set_option maxRecDepth 10000 in
theorem C3_unflattened_lookup_witness :
    (∀ cal ∈ ([] : ICalCalendars), ∀ p ∈ cal, ∀ ev ∈ p.2, ev.Start.offset % 3600 = 0) ∧
    wallClock (⟨172800 + 9 * 3600 + 1800, 0⟩ : GoTime) % 3600 ≠ 0 ∧
    GetHourTag calSat ⟨172800 + 9 * 3600 + 1800, 0⟩ = BusinessHour :=
  ⟨fun cal hcal => absurd hcal (List.not_mem_nil cal), by decide,
    C3_unflattened_lookup satMidnight satMidnight testConf [] _
      (fun cal hcal => absurd hcal (List.not_mem_nil cal)) (by decide)⟩

/-! ## Claim C4: which hours pass 2 writes -/

set_option maxRecDepth 10000 in
/-- C4 counterexample: the Saturday weekend loop iterates through hour 24
and writes the next calendar day's hour 0 — after building a one-day
schedule over a Saturday with no holidays, the key of Sunday 00:00 is in
the table with the weekend tag, although the claim says hour 24 is never
written. -/
theorem C4_counterexample :
    mapGet? calSat.CalendarHours (formatRFC3339 (goAdd satMidnight (3600 * 24))) =
      some WeekendHour := by decide

/-- C4 (amended): each day's pass-2 processing writes only hours 0..24 of
that day; the weekday (non-Friday) branches stay within hours 0..23 and
leave hour 24 untouched, but the Saturday/Sunday weekend loop and the
Friday-evening weekend loop iterate through hour 24 inclusive and write
the next calendar day's hour 0 with the weekend tag whenever that hour
is not already holiday-tagged. -/
theorem C4_day_write_bounds (bS bE : Int) (m : HourMap) (day : GoTime)
    (hal : wallClock day % 3600 = 0) (hbS : bS ≤ 23) (hbE0 : 0 ≤ bE) (hbE23 : bE ≤ 23) :
    (∀ k : HourKey,
      (∀ x : Int, 0 ≤ x → x ≤ 24 → (wallClock day + 3600 * x, day.offset) ≠ k) →
      mapGet? (tagDay bS bE m day) k = mapGet? m k) ∧
    (goWeekday day ≠ 6 → goWeekday day ≠ 0 → goWeekday day ≠ 5 →
      mapGet? (tagDay bS bE m day) (wallClock day + 3600 * 24, day.offset) =
        mapGet? m (wallClock day + 3600 * 24, day.offset)) ∧
    ((goWeekday day = 6 ∨ goWeekday day = 0 ∨ goWeekday day = 5) →
      mapGetD m (wallClock day + 3600 * 24, day.offset) ≠ StatHolidayHour →
      mapGetD (tagDay bS bE m day) (wallClock day + 3600 * 24, day.offset) = WeekendHour) := by
  refine ⟨?_, ?_, ?_⟩
  · intro k hk
    exact tagDay_preserve bS bE m day k hal (by omega) hbE0 hk
  · intro hw6 hw0 hw5
    apply tagDay_preserve_weekday bS bE m day _ hal hw6 hw0 hw5
    intro x hx hcon
    have h1 : wallClock day + 3600 * x = wallClock day + 3600 * 24 :=
      congrArg Prod.fst hcon
    rcases hx with ⟨hx0, hxb⟩ | ⟨hxb, hx23⟩ <;> omega
  · intro hw hne
    rcases hw with hw | hw | hw
    · exact tagDay_write_weekend bS bE m day 24 hal (Or.inl hw) ⟨by norm_num, le_refl 24⟩ hne
    · exact tagDay_write_weekend bS bE m day 24 hal (Or.inr hw) ⟨by norm_num, le_refl 24⟩ hne
    · exact tagDay_write_friday bS bE m day 24 hal hw ⟨by omega, le_refl 24⟩ hne

set_option maxRecDepth 10000 in
theorem C4_day_write_bounds_witness :
    wallClock satMidnight % 3600 = 0 ∧ (9 : Int) ≤ 23 ∧ (0 : Int) ≤ 18 ∧ (18 : Int) ≤ 23 ∧
    (goWeekday satMidnight = 6 ∨ goWeekday satMidnight = 0 ∨ goWeekday satMidnight = 5) ∧
    mapGetD [] (wallClock satMidnight + 3600 * 24, satMidnight.offset) ≠ StatHolidayHour ∧
    mapGetD (tagDay 9 18 [] satMidnight)
      (wallClock satMidnight + 3600 * 24, satMidnight.offset) = WeekendHour :=
  ⟨by decide, by decide, by decide, by decide, by decide, by decide,
    (C4_day_write_bounds 9 18 [] satMidnight (by decide) (by decide) (by decide)
      (by decide)).2.2 (by decide) (by decide)⟩

/-! ## Claim C6 -/

/-- C6: a whitelisted event tags exactly the whole hours from its
flattened start up to one hour before its flattened end: every
enumerated hour is timezone-adjusted and written statutory-holiday (a
repeated or overlapping whitelisted event writes the same value, so the
writes are idempotent), keys outside the adjusted enumeration are
untouched, and the enumeration is precisely the whole hours `3600·k`
from the flattened start that do not pass the flattened end minus one
hour — so a whole-day event covers hours 0..23 and never reaches the
next day's hour 0. -/
theorem C6_event_enumeration (c : Calendar) (m : HourMap) (event : Event)
    (hfilter : filterEvent c event.Summary = true) :
    (∀ t ∈ eventHourRange event,
      mapGetD (tagEventHours c m event)
        (formatRFC3339 (AdjustForTimezone t c.ScheduleConfig.ParsedTimezone)) =
        StatHolidayHour) ∧
    (∀ k : HourKey,
      (∀ t ∈ eventHourRange event,
        formatRFC3339 (AdjustForTimezone t c.ScheduleConfig.ParsedTimezone) ≠ k) →
      mapGet? (tagEventHours c m event) k = mapGet? m k) ∧
    (∀ t : GoTime, t ∈ eventHourRange event ↔
      ∃ k : ℕ,
        3600 * (k : Int) ≤
          (FlattenTime event.End).instant - 3600 - (FlattenTime event.Start).instant ∧
        t = goAdd (FlattenTime event.Start) (3600 * k)) := by
  refine ⟨?_, ?_, ?_⟩
  · intro t ht
    rw [tagEventHours_eq, if_pos hfilter]
    exact tagEventHourLoop_mem c _ m t ht
  · intro k hk
    rw [tagEventHours_eq, if_pos hfilter]
    exact tagEventHourLoop_preserve c _ m k hk
  · intro t
    unfold eventHourRange
    rw [mem_timerangeList_iff _ _ _ (by norm_num)]
    have he : (goAdd (FlattenTime event.End) (-3600)).instant =
        (FlattenTime event.End).instant - 3600 := by
      simp [goAdd]
      omega
    rw [he]

set_option maxRecDepth 10000 in
theorem C6_event_enumeration_witness :
    filterEvent calInit testEvent.Summary = true ∧
    (⟨172800 + 23 * 3600, 0⟩ : GoTime) ∈ eventHourRange testEvent ∧
    mapGetD (tagEventHours calInit [] testEvent)
      (formatRFC3339 (AdjustForTimezone ⟨172800 + 23 * 3600, 0⟩
        calInit.ScheduleConfig.ParsedTimezone)) = StatHolidayHour :=
  ⟨by decide, by decide,
    (C6_event_enumeration calInit [] testEvent (by decide)).1 _ (by decide)⟩

/-! ## Claim C1 -/

/-- C1: holiday precedence is absolute — every key pass 1 tagged
statutory-holiday still carries that tag after pass 2 (each pass-2 write
first checks the existing entry), and consequently `GetHourTag` returns
statutory-holiday for every timezone-adjusted hour of any reachable
whitelisted holiday event of the schedule, regardless of
weekday/weekend status. -/
theorem C1_holiday_precedence (s e : GoTime) (conf : ScheduleConfig) (cals : ICalCalendars)
    (ebd : EventsByDates) (schedDay : GoTime) (evs : List Event) (event : Event) (t : GoTime)
    (hcal : ebd ∈ cals)
    (hday : schedDay ∈ (NewCalendar s e conf cals).CalDays)
    (hlookup : lookupEvents ebd (formatYmdHis (FlattenTime schedDay)) = some evs)
    (hev : event ∈ evs)
    (hfilter : filterEvent (NewCalendar s e conf cals) event.Summary = true)
    (ht : t ∈ eventHourRange event) :
    (∀ k : HourKey,
      mapGetD (afterHolidayPass s e conf cals).CalendarHours k = StatHolidayHour →
      mapGetD (NewCalendar s e conf cals).CalendarHours k = StatHolidayHour) ∧
    GetHourTag (NewCalendar s e conf cals) (AdjustForTimezone t conf.ParsedTimezone) =
      StatHolidayHour := by
  have hkeep : ∀ k : HourKey,
      mapGetD (afterHolidayPass s e conf cals).CalendarHours k = StatHolidayHour →
      mapGetD (NewCalendar s e conf cals).CalendarHours k = StatHolidayHour := by
    intro k hk
    rw [NewCalendar_CalendarHours]
    exact pass2_fold_stat_of_stat _ _ _ _ k hk
  refine ⟨hkeep, ?_⟩
  apply GetHourTag_of_getD_ne _ _ _ (by decide)
  apply hkeep
  exact pass1_stat s e conf cals ebd schedDay evs event t hcal hday hlookup hev hfilter ht

set_option maxRecDepth 10000 in
theorem C1_holiday_precedence_witness :
    testFeed ∈ [testFeed] ∧
    satMidnight ∈ calHoliday.CalDays ∧
    lookupEvents testFeed (formatYmdHis (FlattenTime satMidnight)) = some [testEvent] ∧
    testEvent ∈ [testEvent] ∧
    filterEvent calHoliday testEvent.Summary = true ∧
    (⟨172800 + 9 * 3600, 0⟩ : GoTime) ∈ eventHourRange testEvent ∧
    GetHourTag calHoliday
      (AdjustForTimezone ⟨172800 + 9 * 3600, 0⟩ testConf.ParsedTimezone) = StatHolidayHour :=
  ⟨by decide, by decide, by decide, by decide, by decide, by decide,
    (C1_holiday_precedence satMidnight satMidnight testConf [testFeed] testFeed satMidnight
      [testEvent] testEvent ⟨172800 + 9 * 3600, 0⟩ (by decide) (by decide) (by decide)
      (by decide) (by decide) (by decide)).2⟩

/-! ## Full-build evaluation glue for C2 and C7 -/

theorem GetBusinessHours_NewCalendar (s e : GoTime) (conf : ScheduleConfig)
    (cals : ICalCalendars) :
    GetBusinessHours (NewCalendar s e conf cals) =
      GetBusinessHours (afterHolidayPass s e conf cals) := rfl

/-- Schedule days have hour-aligned wall clocks. -/
theorem CalDays_wall_aligned (s e : GoTime) (conf : ScheduleConfig) (cals : ICalCalendars)
    (day : GoTime) (hmem : day ∈ (NewCalendar s e conf cals).CalDays) :
    wallClock day % 3600 = 0 := by
  obtain ⟨j, hj, rfl⟩ := (mem_CalDays_iff s e conf cals day).mp hmem
  rw [wallClock_goAdd]
  have h1 := FlattenTime_wall_mod s
  omega

/-- Evaluation of the built table at hour `0 ≤ h ≤ 23` of a schedule day,
given what that day's own processing writes for it: later days cannot
touch it and pass 2 cannot make it a holiday. -/
theorem NewCalendar_day_value (s e : GoTime) (conf : ScheduleConfig) (cals : ICalCalendars)
    (day : GoTime) (h v : Int)
    (hmem : day ∈ (NewCalendar s e conf cals).CalDays)
    (hh0 : 0 ≤ h) (hh23 : h ≤ 23)
    (hstat : mapGetD (afterHolidayPass s e conf cals).CalendarHours
      (formatRFC3339 (goAdd day (3600 * h))) ≠ StatHolidayHour)
    (hwrite : ∀ m2 : HourMap,
      mapGetD m2 (formatRFC3339 (goAdd day (3600 * h))) ≠ StatHolidayHour →
      mapGetD (tagDay (goHour (GetBusinessHours (afterHolidayPass s e conf cals)).1)
          (goHour (GetBusinessHours (afterHolidayPass s e conf cals)).2) m2 day)
        (formatRFC3339 (goAdd day (3600 * h))) = v) :
    mapGetD (NewCalendar s e conf cals).CalendarHours
      (formatRFC3339 (goAdd day (3600 * h))) = v := by
  obtain ⟨j, hj, hday⟩ := (mem_CalDays_iff s e conf cals day).mp hmem
  have hj0 : (0 : Int) ≤ 86400 * (j : Int) := by positivity
  have hle : (FlattenTime s).instant ≤ (FlattenTime e).instant := by omega
  have hkeyeq : formatRFC3339 (goAdd day (3600 * h)) =
      (wallClock (FlattenTime s) + 86400 * (j : Int) + 3600 * h, (FlattenTime s).offset) := by
    rw [hday, formatRFC3339_eq, goAdd_goAdd, wallClock_goAdd, offset_goAdd]
    rw [Prod.mk.injEq]
    constructor
    · ring
    · rfl
  have hjN : j ≤ ((FlattenTime e).instant - (FlattenTime s).instant).toNat / 86400 := by
    rw [Nat.le_div_iff_mul_le (by norm_num)]
    omega
  rw [NewCalendar_CalendarHours, timerangeList_days_eq _ _ hle, hkeyeq]
  apply pass2_fold_value _ _ _ _ _ j h v hjN (FlattenTime_wall_mod s) hh0 hh23
    (by have := goHour_lt (GetBusinessHours (afterHolidayPass s e conf cals)).1; omega)
    (goHour_nonneg (GetBusinessHours (afterHolidayPass s e conf cals)).2)
  · intro m2 hm2
    have hday2 : scheduleDay (FlattenTime s) j = day := by
      rw [hday]; rfl
    rw [hday2, ← hkeyeq]
    apply hwrite
    rw [hkeyeq]
    exact hm2
  · rw [← hkeyeq]
    exact hstat

/-- A strictly-inside-business-hours key of a non-Friday weekday schedule
day is written by no pass-2 day and stays absent. -/
theorem NewCalendar_untagged (s e : GoTime) (conf : ScheduleConfig) (cals : ICalCalendars)
    (day : GoTime) (h : Int)
    (hmem : day ∈ (NewCalendar s e conf cals).CalDays)
    (hw6 : goWeekday day ≠ 6) (hw0 : goWeekday day ≠ 0) (hw5 : goWeekday day ≠ 5)
    (hbS : goHour (GetBusinessHours (afterHolidayPass s e conf cals)).1 < h)
    (hbE : h < goHour (GetBusinessHours (afterHolidayPass s e conf cals)).2)
    (hstat : mapGetD (afterHolidayPass s e conf cals).CalendarHours
      (formatRFC3339 (goAdd day (3600 * h))) ≠ StatHolidayHour) :
    mapGet? (NewCalendar s e conf cals).CalendarHours
      (formatRFC3339 (goAdd day (3600 * h))) = none := by
  have hbS0 := goHour_nonneg (GetBusinessHours (afterHolidayPass s e conf cals)).1
  have hbS24 := goHour_lt (GetBusinessHours (afterHolidayPass s e conf cals)).1
  have hbE24 := goHour_lt (GetBusinessHours (afterHolidayPass s e conf cals)).2
  obtain ⟨j, hj, hday⟩ := (mem_CalDays_iff s e conf cals day).mp hmem
  have hj0 : (0 : Int) ≤ 86400 * (j : Int) := by positivity
  have hle : (FlattenTime s).instant ≤ (FlattenTime e).instant := by omega
  have hkeyeq : formatRFC3339 (goAdd day (3600 * h)) =
      (wallClock (FlattenTime s) + 86400 * (j : Int) + 3600 * h, (FlattenTime s).offset) := by
    rw [hday, formatRFC3339_eq, goAdd_goAdd, wallClock_goAdd, offset_goAdd]
    rw [Prod.mk.injEq]
    constructor
    · ring
    · rfl
  have hbase : mapGet? (afterHolidayPass s e conf cals).CalendarHours
      (formatRFC3339 (goAdd day (3600 * h))) = none := by
    rcases pass1_none_or_stat s e conf cals (formatRFC3339 (goAdd day (3600 * h)))
      with h1 | h1
    · exact h1
    · exact absurd (by rw [mapGetD_eq, h1]; rfl) hstat
  rw [NewCalendar_CalendarHours, timerangeList_days_eq _ _ hle, hkeyeq]
  rw [hkeyeq] at hbase
  rw [pass2_fold_none _ _ _ _ _ _ ?hpres]
  · exact hbase
  case hpres =>
    intro m2 i hi
    by_cases hij : i = j
    · subst hij
      have hdayi : scheduleDay (FlattenTime s) i = day := by
        rw [hday]; rfl
      rw [hdayi]
      apply tagDay_preserve_weekday _ _ m2 day _
        (CalDays_wall_aligned s e conf cals day hmem) hw6 hw0 hw5
      intro x hx hcon
      have h1 : wallClock day + 3600 * x =
          wallClock (FlattenTime s) + 86400 * (i : Int) + 3600 * h :=
        congrArg Prod.fst hcon
      have h2 : wallClock day = wallClock (FlattenTime s) + 86400 * (i : Int) := by
        rw [hday, wallClock_goAdd]
      rcases hx with ⟨hx0, hxb⟩ | ⟨hxb, hx23⟩ <;> omega
    · apply tagDay_preserve _ _ m2 _ _
        (by rw [wallClock_scheduleDay]; have := FlattenTime_wall_mod s; omega)
        (by omega) (by omega)
      intro x hx0 hx24 hcon
      have h1 : wallClock (scheduleDay (FlattenTime s) i) + 3600 * x =
          wallClock (FlattenTime s) + 86400 * (j : Int) + 3600 * h :=
        congrArg Prod.fst hcon
      rw [wallClock_scheduleDay] at h1
      have hij2 : (i : Int) ≠ (j : Int) := by exact_mod_cast hij
      omega

/-! ## Claim C2 -/

set_option maxRecDepth 10000 in
/-- C2 counterexample: hour 9 — the business-hours start hour itself — of
a Monday is tagged after-hours by the inclusive morning loop, although
the claim says hours in [business-start, business-end) default to
business. -/
theorem C2_counterexample :
    goHour (GetBusinessHours calMon).1 = 9 ∧
    GetHourTag calMon (goAdd monMidnight (3600 * 9)) = BusinessAfterHour :=
  ⟨by decide, by decide⟩

/-- C2 (amended): on a non-Friday weekday schedule day, the non-holiday
hours up to AND INCLUDING the business-start hour, and the hours from
the business-end hour through 23, are tagged after-hours (the morning
loop's inclusive endpoint also writes the business-start hour itself);
the hours strictly between the business-start hour (exclusive) and the
business-end hour (exclusive) receive no tag and `GetHourTag` returns
the business-hour default for them. -/
theorem C2_weekday_split (s e : GoTime) (conf : ScheduleConfig) (cals : ICalCalendars)
    (day : GoTime) (h : Int)
    (hmem : day ∈ (NewCalendar s e conf cals).CalDays)
    (hw6 : goWeekday day ≠ 6) (hw0 : goWeekday day ≠ 0) (hw5 : goWeekday day ≠ 5)
    (hstat : mapGetD (afterHolidayPass s e conf cals).CalendarHours
      (formatRFC3339 (goAdd day (3600 * h))) ≠ StatHolidayHour) :
    ((0 ≤ h ∧ h ≤ goHour (GetBusinessHours (NewCalendar s e conf cals)).1) ∨
        (goHour (GetBusinessHours (NewCalendar s e conf cals)).2 ≤ h ∧ h ≤ 23) →
      GetHourTag (NewCalendar s e conf cals) (goAdd day (3600 * h)) = BusinessAfterHour) ∧
    (goHour (GetBusinessHours (NewCalendar s e conf cals)).1 < h ∧
        h < goHour (GetBusinessHours (NewCalendar s e conf cals)).2 →
      GetHourTag (NewCalendar s e conf cals) (goAdd day (3600 * h)) = BusinessHour) := by
  have hbS24 := goHour_lt (GetBusinessHours (afterHolidayPass s e conf cals)).1
  have hbE0 := goHour_nonneg (GetBusinessHours (afterHolidayPass s e conf cals)).2
  have hbE24 := goHour_lt (GetBusinessHours (afterHolidayPass s e conf cals)).2
  rw [GetBusinessHours_NewCalendar]
  constructor
  · intro hh
    apply GetHourTag_of_getD_ne _ _ _ (by decide)
    refine NewCalendar_day_value s e conf cals day h BusinessAfterHour hmem ?_ ?_ hstat ?_
    · rcases hh with ⟨h1, _⟩ | ⟨h1, _⟩
      · exact h1
      · omega
    · rcases hh with ⟨_, h2⟩ | ⟨_, h2⟩
      · omega
      · exact h2
    · intro m2 hm2
      have hkey : formatRFC3339 (goAdd day (3600 * h)) =
          (wallClock day + 3600 * h, day.offset) := by
        rw [formatRFC3339_eq, wallClock_goAdd, offset_goAdd]
      rw [hkey] at hm2 ⊢
      exact tagDay_write_afterhours _ _ m2 day h
        (CalDays_wall_aligned s e conf cals day hmem) hw6 hw0 hw5 hbE0 (by omega) hh hm2
  · intro hh
    apply GetHourTag_of_none
    exact NewCalendar_untagged s e conf cals day h hmem hw6 hw0 hw5 hh.1 hh.2 hstat

set_option maxRecDepth 10000 in
theorem C2_weekday_split_witness :
    monMidnight ∈ calMon.CalDays ∧
    goWeekday monMidnight ≠ 6 ∧ goWeekday monMidnight ≠ 0 ∧ goWeekday monMidnight ≠ 5 ∧
    mapGetD (afterHolidayPass monMidnight monMidnight testConf []).CalendarHours
      (formatRFC3339 (goAdd monMidnight (3600 * 10))) ≠ StatHolidayHour ∧
    GetHourTag calMon (goAdd monMidnight (3600 * 10)) = BusinessHour :=
  ⟨by decide, by decide, by decide, by decide, by decide,
    (C2_weekday_split monMidnight monMidnight testConf [] monMidnight 10 (by decide)
      (by decide) (by decide) (by decide) (by decide)).2 ⟨by decide, by decide⟩⟩

/-! ## Claim C7 -/

/-- C7: Friday special-case — for a Friday schedule day, the non-holiday
hours from the business-end hour through 23 are tagged weekend, not
after-hours, so `GetHourTag` on such an hour (e.g. Friday 19:00) returns
the weekend tag. -/
theorem C7_friday_evening_weekend (s e : GoTime) (conf : ScheduleConfig)
    (cals : ICalCalendars) (day : GoTime) (h : Int)
    (hmem : day ∈ (NewCalendar s e conf cals).CalDays)
    (hw5 : goWeekday day = 5)
    (hh : goHour (GetBusinessHours (NewCalendar s e conf cals)).2 ≤ h ∧ h ≤ 23)
    (hstat : mapGetD (afterHolidayPass s e conf cals).CalendarHours
      (formatRFC3339 (goAdd day (3600 * h))) ≠ StatHolidayHour) :
    GetHourTag (NewCalendar s e conf cals) (goAdd day (3600 * h)) = WeekendHour := by
  have hbE0 := goHour_nonneg (GetBusinessHours (afterHolidayPass s e conf cals)).2
  rw [GetBusinessHours_NewCalendar] at hh
  apply GetHourTag_of_getD_ne _ _ _ (by decide)
  refine NewCalendar_day_value s e conf cals day h WeekendHour hmem (by omega) hh.2 hstat ?_
  intro m2 hm2
  have hkey : formatRFC3339 (goAdd day (3600 * h)) =
      (wallClock day + 3600 * h, day.offset) := by
    rw [formatRFC3339_eq, wallClock_goAdd, offset_goAdd]
  rw [hkey] at hm2 ⊢
  exact tagDay_write_friday _ _ m2 day h
    (CalDays_wall_aligned s e conf cals day hmem) hw5 ⟨hh.1, by omega⟩ hm2

set_option maxRecDepth 10000 in
theorem C7_friday_evening_weekend_witness :
    friMidnight ∈ calFri.CalDays ∧
    goWeekday friMidnight = 5 ∧
    (goHour (GetBusinessHours calFri).2 ≤ (19 : Int) ∧ (19 : Int) ≤ 23) ∧
    mapGetD (afterHolidayPass friMidnight friMidnight testConf []).CalendarHours
      (formatRFC3339 (goAdd friMidnight (3600 * 19))) ≠ StatHolidayHour ∧
    GetHourTag calFri (goAdd friMidnight (3600 * 19)) = WeekendHour :=
  ⟨by decide, by decide, ⟨by decide, by decide⟩, by decide,
    C7_friday_evening_weekend friMidnight friMidnight testConf [] friMidnight 19
      (by decide) (by decide) ⟨by decide, by decide⟩ (by decide)⟩
